import Mathlib

/-!
# RANSAC dominant-plane detection (planeRANSAC.go): model and properties

Shallow embedding of the geometry primitives, the iteration-count estimator,
the support scoring / inlier extraction functions, the stages of the pipeline
(the limiter loop, the goroutines of the fan-in as a transition system, the
best-plane reducer) and one round of the driver.

Numeric conventions of the model

The numeric functions of the source are given at two levels.

* Exact level (the definitions GetDistance, GetPlane, GetNumberOfIterations,
  GetSupport, GetSupportingPoints, RemovePlane of the namespace RANSAC): a
  finite float64 value is an exact real number and every operation on finite
  values is the exact real operation; rounding, overflow and underflow are not
  modelled.  The non-finite float64 values (NaN, +Inf, -Inf) are modelled,
  because two operations of the program produce them from finite operands: the
  division in GetDistance (the divisor is a square root, which is zero for a zero
  normal) and math.Log10 at arguments that are not positive.  A theorem at this
  level is a theorem about the program when it uses the distances only through
  the comparisons with eps, or at inputs where no operation rounds; otherwise
  its statement says that coordinates and arithmetic are taken as exact reals.
* Binary64 level (the definitions of the namespace IEEE): the same functions
  with every operation rounded to the nearest binary64 value, with overflow,
  underflow, NaN and the infinities.  This level decides what the program
  returns at a concrete input where rounding matters.
* Signed zeros are not modelled at either level: every zero divisor that occurs
  in the program is +0.
* The Go type int is the 64-bit signed integer.  Converting a float64
  whose truncation is not representable has an implementation-dependent result
  in Go; the model returns none for it.
-/

namespace RANSAC

/-! ## Data model -/

/-- Point3D of the source: a point (x, y, z). -/
@[ext]
structure Point3D where
  X : ℝ
  Y : ℝ
  Z : ℝ

/-- Plane3D of the source: coefficients (a, b, c, d) of a x + b y + c z + d = 0. -/
@[ext]
structure Plane3D where
  A : ℝ
  B : ℝ
  C : ℝ
  D : ℝ

/-- Plane3DwSupport of the source: a plane and its number of support points. -/
@[ext]
structure Plane3DwSupport where
  Plane3D : Plane3D
  SupportSize : Int

/-- The Go array type [3]Point3D. -/
structure Triplet where
  p0 : Point3D
  p1 : Point3D
  p2 : Point3D

/-! ## float64 values that may be non-finite -/

/-- A float64 value: NaN, an infinity, or a finite value given by the real
number it represents. -/
inductive Float64 where
  | nan : Float64
  | negInf : Float64
  | posInf : Float64
  | finite (r : ℝ) : Float64

namespace Float64

/-- The float64 comparison x < y: false as soon as one operand is NaN. -/
noncomputable def lt : Float64 → Float64 → Bool
  | finite a, finite b => decide (a < b)
  | finite _, posInf => true
  | negInf, finite _ => true
  | negInf, posInf => true
  | _, _ => false

/-- The float64 comparison x > y. -/
noncomputable def gt (x y : Float64) : Bool := lt y x

/-- The float64 comparison x <= y: false as soon as one operand is NaN. -/
noncomputable def le : Float64 → Float64 → Bool
  | finite a, finite b => decide (a ≤ b)
  | finite _, posInf => true
  | negInf, finite _ => true
  | negInf, posInf => true
  | negInf, negInf => true
  | posInf, posInf => true
  | _, _ => false

/-- The float64 comparison x >= y. -/
noncomputable def ge (x y : Float64) : Bool := le y x

/-- The float64 division x / y.  A zero divisor is +0. -/
noncomputable def div : Float64 → Float64 → Float64
  | nan, _ => nan
  | _, nan => nan
  | finite a, finite b =>
    if b ≠ 0 then finite (a / b)
    else if 0 < a then posInf
    else if a < 0 then negInf
    else nan
  | finite _, posInf => finite 0
  | finite _, negInf => finite 0
  | posInf, finite b => if 0 ≤ b then posInf else negInf
  | negInf, finite b => if 0 ≤ b then negInf else posInf
  | posInf, posInf => nan
  | posInf, negInf => nan
  | negInf, posInf => nan
  | negInf, negInf => nan

/-- The function math.Log10 at a finite argument: -Inf at 0, NaN below 0. -/
noncomputable def log10 (x : ℝ) : Float64 :=
  if 0 < x then finite (Real.logb 10 x)
  else if x = 0 then negInf
  else nan

/-- Truncation of a real toward zero. -/
noncomputable def trunc (r : ℝ) : Int := if 0 ≤ r then ⌊r⌋ else ⌈r⌉

/-- The Go conversion int(x) of a float64 to the 64-bit int: the truncation
toward zero when it is representable, none (an implementation-dependent value)
otherwise. -/
noncomputable def toInt : Float64 → Option Int
  | finite r => if -(2 : Int) ^ 63 ≤ trunc r ∧ trunc r < (2 : Int) ^ 63 then some (trunc r) else none
  | _ => none

end Float64

/-! ## Geometry primitives -/

/-- GetDistance of the source at the exact level: the distance between point p1
and plane; numerator and denominator are computed in exact real arithmetic, and
the quotient follows the float64 rules for a zero divisor.  The function in
binary64 arithmetic is IEEE.GetDistance. -/
noncomputable def GetDistance (p1 : Point3D) (plane : Plane3D) : Float64 :=
  let numerator : ℝ := |plane.A * p1.X + plane.B * p1.Y + plane.C * p1.Z + plane.D|
  let denominator : ℝ := Real.sqrt (plane.A ^ 2 + plane.B ^ 2 + plane.C ^ 2)
  Float64.div (Float64.finite numerator) (Float64.finite denominator)

/-- GetPlane of the source at the exact level: the plane defined by a set of 3
points, in exact real arithmetic.  The function in binary64 arithmetic is
IEEE.GetPlane. -/
def GetPlane (points : Triplet) : Plane3D :=
  let x1 : ℝ := points.p0.X - points.p1.X
  let y1 : ℝ := points.p0.Y - points.p1.Y
  let z1 : ℝ := points.p0.Z - points.p1.Z
  let x2 : ℝ := points.p0.X - points.p2.X
  let y2 : ℝ := points.p0.Y - points.p2.Y
  let z2 : ℝ := points.p0.Z - points.p2.Z
  let a : ℝ := y1 * z2 - y2 * z1
  let b : ℝ := x2 * z1 - x1 * z2
  let c : ℝ := x1 * y2 - x2 * y1
  let d : ℝ := -(a * points.p0.X + b * points.p0.Y + c * points.p0.Z)
  { A := a, B := b, C := c, D := d }

/-- The point q + t v of the line through q with direction v. -/
def lineAt (q v : Point3D) (t : ℝ) : Point3D :=
  { X := q.X + t * v.X, Y := q.Y + t * v.Y, Z := q.Z + t * v.Z }

/-- Three points are collinear when one line (a base point q and a direction v,
possibly the zero vector) passes through all of them.  Repeated points are
collinear. -/
def Collinear (p0 p1 p2 : Point3D) : Prop :=
  ∃ (q v : Point3D) (t0 t1 t2 : ℝ), p0 = lineAt q v t0 ∧ p1 = lineAt q v t1 ∧ p2 = lineAt q v t2

/-! ## Iteration-count estimator -/

/-- GetNumberOfIterations of the source at the exact level:
int(math.Log10(1 - confidence) / math.Log10(1 - math.Pow(percentageOfPointsOnPlane, 3)))
with exact real logarithms, power, difference and quotient.  The function in
binary64 arithmetic is IEEE.GetNumberOfIterations. -/
noncomputable def GetNumberOfIterations (confidence : ℝ) (percentageOfPointsOnPlane : ℝ) :
    Option Int :=
  Float64.toInt
    (Float64.div (Float64.log10 (1 - confidence))
      (Float64.log10 (1 - percentageOfPointsOnPlane ^ 3)))

/-! ## Support of a plane -/

/-- GetSupport of the source: the loop counts the points whose distance to the
plane is less than eps. -/
noncomputable def GetSupport (plane : Plane3D) (points : List Point3D) (eps : ℝ) :
    Plane3DwSupport :=
  let numOfSupportPoints : Int :=
    points.foldl
      (fun n point =>
        if Float64.lt (GetDistance point plane) (Float64.finite eps) then n + 1 else n)
      0
  { Plane3D := plane, SupportSize := numOfSupportPoints }

/-- GetSupportingPoints of the source: the loop appends the points whose
distance to the plane is less than eps. -/
noncomputable def GetSupportingPoints (plane : Plane3D) (points : List Point3D) (eps : ℝ) :
    List Point3D :=
  points.foldl
    (fun supportPoints point =>
      if Float64.lt (GetDistance point plane) (Float64.finite eps)
      then supportPoints ++ [point] else supportPoints)
    []

/-- RemovePlane of the source: the loop appends the points whose distance to
the plane is greater than eps. -/
noncomputable def RemovePlane (plane : Plane3D) (points : List Point3D) (eps : ℝ) :
    List Point3D :=
  points.foldl
    (fun pointsNotInPlane point =>
      if Float64.gt (GetDistance point plane) (Float64.finite eps)
      then pointsNotInPlane ++ [point] else pointsNotInPlane)
    []

/-! ## Pipeline stages

A channel that is read by one consumer is modelled by the sequence of the
values sent on it: an infinite stream is a function on Nat, a channel that is
closed after finitely many values is a list. -/

/-- The stage takeN: forwards the first nArrays triplets, then closes. -/
def takeN (tripletReceiver : Nat → Triplet) (nArrays : Int) : List Triplet :=
  (List.range nArrays.toNat).map tripletReceiver

/-- The stage fanIn: the merged channel carries the single value of each worker
channel; arrival lists the worker indices in the order in which their values
reach the merged channel (in a run it is a permutation of the indices). -/
def fanIn (supportChannels : List Plane3DwSupport) (arrival : List Nat) :
    List Plane3DwSupport :=
  arrival.filterMap (fun i => supportChannels.get? i)

/-- The stage dominantPlaneIdentifier: keeps the plane with the best support
received so far; returns the final content of bestSupport. -/
def dominantPlaneIdentifier (plane3DSupportReceiver : List Plane3DwSupport)
    (bestSupport : Plane3DwSupport) : Plane3DwSupport :=
  plane3DSupportReceiver.foldl
    (fun bestSupport plane3DwSupport =>
      if plane3DwSupport.SupportSize > bestSupport.SupportSize then plane3DwSupport
      else bestSupport)
    bestSupport

/-- The test of GetSupport and GetSupportingPoints: distance < eps. -/
noncomputable def isInlier (plane : Plane3D) (eps : ℝ) (point : Point3D) : Bool :=
  Float64.lt (GetDistance point plane) (Float64.finite eps)

/-- The test of RemovePlane: distance > eps. -/
noncomputable def isOutlier (plane : Plane3D) (eps : ℝ) (point : Point3D) : Bool :=
  Float64.gt (GetDistance point plane) (Float64.finite eps)

/-! ## The loop of takeN -/

/-- The loop of takeN, for i := 0; i < nArrays; i++: each iteration receives one
triplet from the upstream and sends it on the output.  The state is the loop
counter i, the number of triplets received from the upstream so far and the
sequence sent so far; the result is the state when the loop ends, which is when
the output is closed. -/
def takeNLoop (tripletReceiver : Nat → Triplet) (nArrays : Int) (i : Int) (received : Nat)
    (out : List Triplet) : Nat × List Triplet :=
  if i < nArrays then
    takeNLoop tripletReceiver nArrays (i + 1) (received + 1) (out ++ [tripletReceiver received])
  else (received, out)
termination_by (nArrays - i).toNat
decreasing_by omega

/-! ## One round seen from the reducer -/

/-- One scorer worker together with its channel (capacity 1) and the goroutine
output(c) of fanIn that reads this channel.  The field value is the scored plane
the worker computes; sent and chanClosed tell which statements of the worker
goroutine have run (out <- GetSupport(...), close(out)); buffer is the content
of the channel; holding is the variable n of output(c) between its receive and
its send on the merged channel; done tells that output(c) has called wg.Done. -/
structure Worker (α : Type) where
  value : α
  sent : Bool
  chanClosed : Bool
  buffer : Option α
  holding : Option α
  done : Bool

/-- The state of the fan-in: the workers, the counter of the WaitGroup, the
values received so far by the reader of the merged channel, whether the merged
channel is closed, and whether a goroutine has panicked. -/
structure FanInState (α : Type) where
  workers : List (Worker α)
  wg : Int
  delivered : List α
  closed : Bool
  panicked : Bool

/-- The steps of the goroutines. -/
inductive Action where
  | workerSend (i : Nat) : Action
  | workerClose (i : Nat) : Action
  | outputReceive (i : Nat) : Action
  | outputSend (i : Nat) : Action
  | outputExit (i : Nat) : Action
  | closeMerged : Action
  deriving DecidableEq

/-- The state when fanIn returns: no worker has sent yet, wg.Add(len) has set
the counter, the merged channel is open and empty. -/
def fanInInit {α : Type} (values : List α) : FanInState α :=
  { workers := values.map (fun v =>
      { value := v, sent := false, chanClosed := false, buffer := none, holding := none,
        done := false }),
    wg := (values.length : Int),
    delivered := [],
    closed := false,
    panicked := false }

/-- One step; none when the goroutine cannot take this step in this state.
* workerSend i: the worker sends its value into its channel of capacity 1.
* workerClose i: the worker closes its channel after the send.
* outputReceive i: the loop for n := range c of output(c) receives the value.
* outputSend i: out <- n, received at once by the reader of the merged channel;
  a send on a closed channel panics.
* outputExit i: the channel is closed and empty, the loop ends, wg.Done runs; a
  negative counter panics.
* closeMerged: wg.Wait returns because the counter is zero, close(out) runs. -/
def fanInStep {α : Type} (s : FanInState α) : Action → Option (FanInState α)
  | Action.workerSend i =>
    match s.workers.get? i with
    | some w =>
      if s.panicked = false ∧ w.sent = false then
        some { s with workers := s.workers.set i { w with sent := true, buffer := some w.value } }
      else none
    | none => none
  | Action.workerClose i =>
    match s.workers.get? i with
    | some w =>
      if s.panicked = false ∧ w.sent = true ∧ w.chanClosed = false then
        some { s with workers := s.workers.set i { w with chanClosed := true } }
      else none
    | none => none
  | Action.outputReceive i =>
    match s.workers.get? i with
    | some w =>
      match w.buffer with
      | some v =>
        if s.panicked = false ∧ w.done = false ∧ w.holding.isNone = true then
          some { s with workers := s.workers.set i { w with buffer := none, holding := some v } }
        else none
      | none => none
    | none => none
  | Action.outputSend i =>
    match s.workers.get? i with
    | some w =>
      match w.holding with
      | some v =>
        if s.panicked = false then
          if s.closed = true then some { s with panicked := true }
          else
            some { s with
              workers := s.workers.set i { w with holding := none },
              delivered := s.delivered ++ [v] }
        else none
      | none => none
    | none => none
  | Action.outputExit i =>
    match s.workers.get? i with
    | some w =>
      if s.panicked = false ∧ w.done = false ∧ w.holding.isNone = true ∧ w.buffer.isNone = true ∧
          w.chanClosed = true then
        some { s with
          workers := s.workers.set i { w with done := true },
          wg := s.wg - 1,
          panicked := decide (s.wg - 1 < 0) }
      else none
    | none => none
  | Action.closeMerged =>
    if s.panicked = false ∧ s.wg = 0 ∧ s.closed = false then some { s with closed := true }
    else none

/-- The state after a schedule, none when one of its steps cannot be taken. -/
def fanInRun {α : Type} (s : FanInState α) : List Action → Option (FanInState α)
  | [] => some s
  | a :: rest =>
    match fanInStep s a with
    | some s2 => fanInRun s2 rest
    | none => none

/-- The value of the worker has reached the reader of the merged channel. -/
def Worker.forwarded {α : Type} (w : Worker α) : Bool :=
  w.sent && w.buffer.isNone && w.holding.isNone

/-- The number of steps the two goroutines of a worker have taken (at most 5:
send, close, receive, send on the merged channel, exit). -/
def Worker.taken {α : Type} (w : Worker α) : Nat :=
  (if w.sent then 1 else 0) + (if w.chanClosed then 1 else 0) +
    (if w.sent && w.buffer.isNone then 1 else 0) + (if w.forwarded then 1 else 0) +
    (if w.done then 1 else 0)

/-- The states of a worker that can occur: the value is in the buffer or in
the variable n only after the send and before wg.Done, and wg.Done comes after
the close. -/
def Worker.wf {α : Type} (w : Worker α) : Prop :=
  (w.sent = false → w.chanClosed = false ∧ w.buffer = none ∧ w.holding = none ∧ w.done = false) ∧
  (w.buffer = none ∨ (w.buffer = some w.value ∧ w.holding = none ∧ w.done = false)) ∧
  (w.holding = none ∨ (w.holding = some w.value ∧ w.buffer = none ∧ w.done = false)) ∧
  (w.done = true → w.chanClosed = true ∧ w.buffer = none ∧ w.holding = none)

/-- The invariant of the fan-in for the worker values given by values: the
reader has received the values of the forwarded workers, the counter of the
WaitGroup counts the output goroutines that have not called Done, the merged
channel is closed only when all have, and nothing has panicked. -/
structure FanInInv {α : Type} (values : List α) (s : FanInState α) : Prop where
  wf : ∀ w ∈ s.workers, w.wf
  vals : s.workers.map Worker.value = values
  deliv : s.delivered.Perm ((s.workers.filter Worker.forwarded).map Worker.value)
  count : s.wg = (((s.workers.filter (fun w => !w.done)).length : Nat) : Int)
  closedDone : s.closed = true → ∀ w ∈ s.workers, w.done = true
  noPanic : s.panicked = false

/-- The number of steps taken so far, read from the state. -/
def FanInState.steps {α : Type} (s : FanInState α) : Nat :=
  (s.workers.map Worker.taken).sum + (if s.closed then 1 else 0)

/-! ## A cloud with a dominant plane z = 0 -/

namespace IEEE

/-- Rounding of a real to the nearest integer, ties to the even integer. -/
noncomputable def roundHalfEven (r : ℝ) : Int :=
  if r - ⌊r⌋ < 1 / 2 then ⌊r⌋
  else if 1 / 2 < r - ⌊r⌋ then ⌊r⌋ + 1
  else if ⌊r⌋ % 2 = 0 then ⌊r⌋
  else ⌊r⌋ + 1

/-- The exponent of the unit in the last place of the binary64 values next to
x: a binary64 value has 53 significant bits, and the smallest exponent of a unit
in the last place is -1074 (subnormal values). -/
noncomputable def ulpExponent (x : ℝ) : Int := max (Int.log 2 |x| - 52) (-1074)

/-- The binary64 value nearest to the real x, ties to even; an infinity when
the rounded value is 2^1024 or more in absolute value. -/
noncomputable def round64 (x : ℝ) : Float64 :=
  if (2 : ℝ) ^ (1024 : Int) ≤
      |(roundHalfEven (x / (2 : ℝ) ^ ulpExponent x) : ℝ) * (2 : ℝ) ^ ulpExponent x| then
    (if 0 < x then Float64.posInf else Float64.negInf)
  else Float64.finite ((roundHalfEven (x / (2 : ℝ) ^ ulpExponent x) : ℝ) * (2 : ℝ) ^ ulpExponent x)

/-- The float64 negation -x. -/
def fneg : Float64 → Float64
  | Float64.nan => Float64.nan
  | Float64.negInf => Float64.posInf
  | Float64.posInf => Float64.negInf
  | Float64.finite a => Float64.finite (-a)

/-- The float64 sum x + y. -/
noncomputable def fadd : Float64 → Float64 → Float64
  | Float64.finite a, Float64.finite b => round64 (a + b)
  | Float64.finite _, Float64.posInf => Float64.posInf
  | Float64.finite _, Float64.negInf => Float64.negInf
  | Float64.posInf, Float64.finite _ => Float64.posInf
  | Float64.negInf, Float64.finite _ => Float64.negInf
  | Float64.posInf, Float64.posInf => Float64.posInf
  | Float64.negInf, Float64.negInf => Float64.negInf
  | Float64.posInf, Float64.negInf => Float64.nan
  | Float64.negInf, Float64.posInf => Float64.nan
  | Float64.nan, _ => Float64.nan
  | _, Float64.nan => Float64.nan

/-- The float64 difference x - y. -/
noncomputable def fsub (x y : Float64) : Float64 := fadd x (fneg y)

/-- The sign rule for a product or quotient in which an infinity occurs:
s tells whether the result is positive. -/
def signedInf (s : Bool) : Float64 := if s then Float64.posInf else Float64.negInf

/-- The float64 product x * y. -/
noncomputable def fmul : Float64 → Float64 → Float64
  | Float64.finite a, Float64.finite b => round64 (a * b)
  | Float64.finite a, Float64.posInf => if a = 0 then Float64.nan else signedInf (decide (0 < a))
  | Float64.finite a, Float64.negInf => if a = 0 then Float64.nan else signedInf (decide (a < 0))
  | Float64.posInf, Float64.finite b => if b = 0 then Float64.nan else signedInf (decide (0 < b))
  | Float64.negInf, Float64.finite b => if b = 0 then Float64.nan else signedInf (decide (b < 0))
  | Float64.posInf, Float64.posInf => Float64.posInf
  | Float64.negInf, Float64.negInf => Float64.posInf
  | Float64.posInf, Float64.negInf => Float64.negInf
  | Float64.negInf, Float64.posInf => Float64.negInf
  | Float64.nan, _ => Float64.nan
  | _, Float64.nan => Float64.nan

/-- The float64 quotient x / y.  A zero divisor is +0. -/
noncomputable def fdiv : Float64 → Float64 → Float64
  | Float64.finite a, Float64.finite b =>
    if b ≠ 0 then round64 (a / b)
    else if 0 < a then Float64.posInf
    else if a < 0 then Float64.negInf
    else Float64.nan
  | Float64.finite _, Float64.posInf => Float64.finite 0
  | Float64.finite _, Float64.negInf => Float64.finite 0
  | Float64.posInf, Float64.finite b => signedInf (decide (0 ≤ b))
  | Float64.negInf, Float64.finite b => signedInf (decide (b < 0))
  | Float64.posInf, Float64.posInf => Float64.nan
  | Float64.posInf, Float64.negInf => Float64.nan
  | Float64.negInf, Float64.posInf => Float64.nan
  | Float64.negInf, Float64.negInf => Float64.nan
  | Float64.nan, _ => Float64.nan
  | _, Float64.nan => Float64.nan

/-- The function math.Abs. -/
def fabs : Float64 → Float64
  | Float64.nan => Float64.nan
  | Float64.negInf => Float64.posInf
  | Float64.posInf => Float64.posInf
  | Float64.finite a => Float64.finite |a|

/-- The function math.Sqrt: the rounded square root, NaN below 0. -/
noncomputable def fsqrt : Float64 → Float64
  | Float64.nan => Float64.nan
  | Float64.negInf => Float64.nan
  | Float64.posInf => Float64.posInf
  | Float64.finite a => if a < 0 then Float64.nan else round64 (Real.sqrt a)

/-- The call math.Pow(x, 2).  The square-and-multiply loop of math.Pow forms
one rounded product of the significand with itself and rescales it by the
exponent, which is the rounded product x * x (a result in the subnormal range
may differ from it in the last bit). -/
noncomputable def fpow2 (x : Float64) : Float64 := fmul x x

/-- The call math.Pow(x, 3).  The square-and-multiply loop of math.Pow
multiplies x by the rounded square of x (a result in the subnormal range may
differ from the rounded product in the last bit). -/
noncomputable def fpow3 (x : Float64) : Float64 := fmul x (fmul x x)

/-- The function math.Log10: -Inf at 0, NaN below 0, and for a positive
argument the logarithm rounded to binary64.  The library routine may differ
from the rounded logarithm in the last bits, which is why the estimator is also
given with the routine as a parameter (GetNumberOfIterationsWith). -/
noncomputable def flog10 : Float64 → Float64
  | Float64.nan => Float64.nan
  | Float64.negInf => Float64.nan
  | Float64.posInf => Float64.posInf
  | Float64.finite a =>
    if 0 < a then round64 (Real.logb 10 a)
    else if a = 0 then Float64.negInf
    else Float64.nan

/-- A float64 value that is not negative: +Inf, or a finite value that is at
least 0. -/
def NonNeg (x : Float64) : Prop :=
  x = Float64.posInf ∨ ∃ r : ℝ, 0 ≤ r ∧ x = Float64.finite r

/-- Point3D of the source with float64 fields. -/
structure Point3D where
  X : Float64
  Y : Float64
  Z : Float64

/-- Plane3D of the source with float64 fields. -/
structure Plane3D where
  A : Float64
  B : Float64
  C : Float64
  D : Float64

/-- Plane3DwSupport of the source with float64 fields. -/
structure Plane3DwSupport where
  Plane3D : Plane3D
  SupportSize : Int

/-- The Go array type [3]Point3D with float64 fields. -/
structure Triplet where
  p0 : Point3D
  p1 : Point3D
  p2 : Point3D

/-- GetDistance of the source in binary64 arithmetic. -/
noncomputable def GetDistance (p1 : Point3D) (plane : Plane3D) : Float64 :=
  let numerator : Float64 :=
    fabs (fadd (fadd (fadd (fmul plane.A p1.X) (fmul plane.B p1.Y)) (fmul plane.C p1.Z)) plane.D)
  let denominator : Float64 :=
    fsqrt (fadd (fadd (fpow2 plane.A) (fpow2 plane.B)) (fpow2 plane.C))
  fdiv numerator denominator

/-- GetPlane of the source in binary64 arithmetic. -/
noncomputable def GetPlane (points : Triplet) : Plane3D :=
  let x1 : Float64 := fsub points.p0.X points.p1.X
  let y1 : Float64 := fsub points.p0.Y points.p1.Y
  let z1 : Float64 := fsub points.p0.Z points.p1.Z
  let x2 : Float64 := fsub points.p0.X points.p2.X
  let y2 : Float64 := fsub points.p0.Y points.p2.Y
  let z2 : Float64 := fsub points.p0.Z points.p2.Z
  let a : Float64 := fsub (fmul y1 z2) (fmul y2 z1)
  let b : Float64 := fsub (fmul x2 z1) (fmul x1 z2)
  let c : Float64 := fsub (fmul x1 y2) (fmul x2 y1)
  let d : Float64 := fneg (fadd (fadd (fmul a points.p0.X) (fmul b points.p0.Y)) (fmul c points.p0.Z))
  { A := a, B := b, C := c, D := d }

/-- GetNumberOfIterations of the source in binary64 arithmetic, with the library
routine math.Log10 as the parameter Log10. -/
noncomputable def GetNumberOfIterationsWith (Log10 : Float64 → Float64) (confidence : Float64)
    (percentageOfPointsOnPlane : Float64) : Option Int :=
  Float64.toInt
    (fdiv (Log10 (fsub (Float64.finite 1) confidence))
      (Log10 (fsub (Float64.finite 1) (fpow3 percentageOfPointsOnPlane))))

/-- GetNumberOfIterations of the source in binary64 arithmetic. -/
noncomputable def GetNumberOfIterations (confidence : Float64)
    (percentageOfPointsOnPlane : Float64) : Option Int :=
  GetNumberOfIterationsWith flog10 confidence percentageOfPointsOnPlane

/-- GetSupport of the source in binary64 arithmetic. -/
noncomputable def GetSupport (plane : Plane3D) (points : List Point3D) (eps : Float64) :
    Plane3DwSupport :=
  let numOfSupportPoints : Int :=
    points.foldl
      (fun n point => if Float64.lt (GetDistance point plane) eps then n + 1 else n)
      0
  { Plane3D := plane, SupportSize := numOfSupportPoints }

/-- RemovePlane of the source in binary64 arithmetic. -/
noncomputable def RemovePlane (plane : Plane3D) (points : List Point3D) (eps : Float64) :
    List Point3D :=
  points.foldl
    (fun pointsNotInPlane point =>
      if Float64.gt (GetDistance point plane) eps
      then pointsNotInPlane ++ [point] else pointsNotInPlane)
    []

/-- A plane with real coefficients as a plane with float64 fields. -/
def ofPlane (plane : RANSAC.Plane3D) : Plane3D :=
  { A := Float64.finite plane.A, B := Float64.finite plane.B, C := Float64.finite plane.C,
    D := Float64.finite plane.D }

end IEEE

theorem foldl_append_if {α : Type} (t : α → Bool) (l acc : List α) :
    l.foldl (fun out x => if t x then out ++ [x] else out) acc = acc ++ l.filter t := by
  induction l generalizing acc with
  | nil => simp
  | cons x xs ih =>
    by_cases hx : t x
    · simp [List.foldl_cons, ih, hx, List.filter_cons]
    · simp [List.foldl_cons, ih, hx, List.filter_cons]

theorem foldl_count_if {α : Type} (t : α → Bool) (l : List α) (n : Int) :
    l.foldl (fun k x => if t x then k + 1 else k) n = n + (l.countP t : Int) := by
  induction l generalizing n with
  | nil => simp
  | cons x xs ih =>
    by_cases hx : t x
    · simp only [List.foldl_cons, hx, if_true, ih, List.countP_cons_of_pos]
      push_cast
      ring
    · simp [List.foldl_cons, hx, ih, List.countP_cons]

theorem GetSupportingPoints_eq_filter (plane : Plane3D) (points : List Point3D) (eps : ℝ) :
    GetSupportingPoints plane points eps = points.filter (isInlier plane eps) := by
  have h := foldl_append_if (isInlier plane eps) points []
  simpa [GetSupportingPoints, isInlier] using h

theorem RemovePlane_eq_filter (plane : Plane3D) (points : List Point3D) (eps : ℝ) :
    RemovePlane plane points eps = points.filter (isOutlier plane eps) := by
  have h := foldl_append_if (isOutlier plane eps) points []
  simpa [RemovePlane, isOutlier] using h

theorem GetSupport_size_eq_countP (plane : Plane3D) (points : List Point3D) (eps : ℝ) :
    (GetSupport plane points eps).SupportSize = (points.countP (isInlier plane eps) : Int) := by
  have h := foldl_count_if (isInlier plane eps) points 0
  simpa [GetSupport, isInlier] using h

/-! ## Inlier extraction (C1) -/

/-- C1: the point (0,0,1) is at distance exactly 1 from the plane z = 0; with
eps = 1 neither GetSupportingPoints nor RemovePlane keeps it, so the two results
do not partition the cloud: the point is lost. -/
theorem partition_loses_point_at_distance_eps :
    GetSupportingPoints { A := 0, B := 0, C := 1, D := 0 } [{ X := 0, Y := 0, Z := 1 }] 1 = [] ∧
    RemovePlane { A := 0, B := 0, C := 1, D := 0 } [{ X := 0, Y := 0, Z := 1 }] 1 = [] := by
  constructor <;>
    simp [GetSupportingPoints, RemovePlane, GetDistance, Float64.div, Float64.lt, Float64.gt]

/-! ## Support count (C4, C7) -/

/-- C4: GetSupport returns the input plane unchanged, with SupportSize the number
of points of the cloud whose distance to the plane is less than eps, which is
the length of GetSupportingPoints on the same arguments. -/
theorem GetSupport_plane_and_count (plane : Plane3D) (points : List Point3D) (eps : ℝ) :
    (GetSupport plane points eps).Plane3D = plane ∧
    (GetSupport plane points eps).SupportSize =
      ((points.countP
        (fun p => Float64.lt (GetDistance p plane) (Float64.finite eps)) : Nat) : Int) ∧
    (GetSupport plane points eps).SupportSize =
      (((GetSupportingPoints plane points eps).length : Nat) : Int) := by
  refine ⟨rfl, ?_, ?_⟩
  · exact GetSupport_size_eq_countP plane points eps
  · rw [GetSupport_size_eq_countP, GetSupportingPoints_eq_filter, List.countP_eq_length_filter]

theorem isInlier_mono (plane : Plane3D) (eps1 eps2 : ℝ) (h : eps1 ≤ eps2) (p : Point3D)
    (hp : isInlier plane eps1 p = true) : isInlier plane eps2 p = true := by
  unfold isInlier at *
  cases hd : GetDistance p plane with
  | nan => simp [hd, Float64.lt] at hp
  | negInf => simp [Float64.lt]
  | posInf => simp [hd, Float64.lt] at hp
  | finite r =>
    simp only [hd, Float64.lt, decide_eq_true_eq] at hp ⊢
    exact lt_of_lt_of_le hp h

/-- C7: GetSupport is monotonic in eps: a larger eps never gives a smaller
support count. -/
theorem GetSupport_mono_eps (plane : Plane3D) (points : List Point3D) (eps1 eps2 : ℝ)
    (h : eps1 ≤ eps2) :
    (GetSupport plane points eps1).SupportSize ≤ (GetSupport plane points eps2).SupportSize := by
  rw [GetSupport_size_eq_countP, GetSupport_size_eq_countP]
  exact_mod_cast List.countP_mono_left (fun p _ hp => isInlier_mono plane eps1 eps2 h p hp)

/-- The monotonicity of GetSupport at the plane z = 0, the cloud of the single
point (0,0,1) and eps 1 <= 2. -/
theorem GetSupport_mono_eps_witness :
    (1 : ℝ) ≤ 2 ∧
    (GetSupport { A := 0, B := 0, C := 1, D := 0 } [{ X := 0, Y := 0, Z := 1 }] 1).SupportSize ≤
      (GetSupport { A := 0, B := 0, C := 1, D := 0 } [{ X := 0, Y := 0, Z := 1 }] 2).SupportSize :=
  ⟨by norm_num, GetSupport_mono_eps _ _ 1 2 (by norm_num)⟩

/-! ## Best-plane reducer (C3) -/

theorem dominantPlaneIdentifier_cons (x : Plane3DwSupport) (l : List Plane3DwSupport)
    (b : Plane3DwSupport) :
    dominantPlaneIdentifier (x :: l) b =
      dominantPlaneIdentifier l (if x.SupportSize > b.SupportSize then x else b) := by
  simp [dominantPlaneIdentifier]

theorem foldr_max_init (l : List Int) (a c : Int) :
    l.foldr max (max a c) = max c (l.foldr max a) := by
  induction l with
  | nil => simp [max_comm]
  | cons x xs ih => simp only [List.foldr_cons, ih, max_left_comm]

/-- The support of the final holder is the maximum of the support of the initial
holder and the supports of the sequence. -/
theorem dominantPlaneIdentifier_size (l : List Plane3DwSupport) (b : Plane3DwSupport) :
    (dominantPlaneIdentifier l b).SupportSize =
      (l.map Plane3DwSupport.SupportSize).foldr max b.SupportSize := by
  induction l generalizing b with
  | nil => simp [dominantPlaneIdentifier]
  | cons x xs ih =>
    rw [dominantPlaneIdentifier_cons, ih]
    by_cases hx : x.SupportSize > b.SupportSize
    · have hm : x.SupportSize = max b.SupportSize x.SupportSize := by
        rw [max_eq_right (le_of_lt hx)]
      simp only [hx, if_true, List.map_cons, List.foldr_cons]
      rw [hm, foldr_max_init, max_eq_right (le_of_lt hx)]
    · have hm : b.SupportSize = max b.SupportSize x.SupportSize := by
        rw [max_eq_left (not_lt.mp hx)]
      simp only [hx, if_false, List.map_cons, List.foldr_cons]
      conv_lhs => rw [hm]
      rw [foldr_max_init]

/-- The final holder is either the initial holder, and then no element of the
sequence has a greater support, or the first element of the sequence that has
the final support, which is then greater than the initial one. -/
theorem dominantPlaneIdentifier_first (l : List Plane3DwSupport) (b : Plane3DwSupport) :
    (dominantPlaneIdentifier l b = b ∧ ∀ x ∈ l, x.SupportSize ≤ b.SupportSize) ∨
    (b.SupportSize < (dominantPlaneIdentifier l b).SupportSize ∧
      l.find? (fun x => decide (x.SupportSize = (dominantPlaneIdentifier l b).SupportSize)) =
        some (dominantPlaneIdentifier l b)) := by
  induction l generalizing b with
  | nil => left; simp [dominantPlaneIdentifier]
  | cons x xs ih =>
    rw [dominantPlaneIdentifier_cons]
    by_cases hx : x.SupportSize > b.SupportSize
    · simp only [hx, if_true]
      right
      rcases ih x with ⟨he, hall⟩ | ⟨hlt, hfind⟩
      · rw [he]
        exact ⟨hx, by simp⟩
      · refine ⟨lt_trans hx hlt, ?_⟩
        rw [List.find?_cons_of_neg _ (by simpa using ne_of_lt hlt)]
        exact hfind
    · simp only [hx, if_false]
      rcases ih b with ⟨he, hall⟩ | ⟨hlt, hfind⟩
      · left
        refine ⟨he, ?_⟩
        intro y hy
        rcases List.mem_cons.mp hy with rfl | hy
        · exact not_lt.mp hx
        · exact hall y hy
      · right
        refine ⟨hlt, ?_⟩
        rw [List.find?_cons_of_neg _
          (by simpa using ne_of_lt (lt_of_le_of_lt (not_lt.mp hx) hlt))]
        exact hfind

/-- C3: started from the sentinel (plane (0,0,0,0), support 0), the reducer ends
with a holder whose support is the maximum of 0 and all supports of the
sequence; when that maximum is positive the holder is the first element of the
sequence with that support; when no element has a positive support the holder
is still the sentinel. -/
theorem dominantPlaneIdentifier_from_sentinel (l : List Plane3DwSupport) :
    (dominantPlaneIdentifier l
        { Plane3D := { A := 0, B := 0, C := 0, D := 0 }, SupportSize := 0 }).SupportSize =
      (l.map Plane3DwSupport.SupportSize).foldr max 0 ∧
    (0 < (l.map Plane3DwSupport.SupportSize).foldr max 0 →
      l.find? (fun x => decide (x.SupportSize = (l.map Plane3DwSupport.SupportSize).foldr max 0)) =
        some (dominantPlaneIdentifier l
          { Plane3D := { A := 0, B := 0, C := 0, D := 0 }, SupportSize := 0 })) ∧
    ((∀ x ∈ l, x.SupportSize ≤ 0) →
      dominantPlaneIdentifier l
          { Plane3D := { A := 0, B := 0, C := 0, D := 0 }, SupportSize := 0 } =
        { Plane3D := { A := 0, B := 0, C := 0, D := 0 }, SupportSize := 0 }) := by
  have hsize := dominantPlaneIdentifier_size l
    { Plane3D := { A := 0, B := 0, C := 0, D := 0 }, SupportSize := 0 }
  have hfirst := dominantPlaneIdentifier_first l
    { Plane3D := { A := 0, B := 0, C := 0, D := 0 }, SupportSize := 0 }
  simp only at hsize hfirst
  refine ⟨hsize, ?_, ?_⟩
  · intro hpos
    rw [← hsize] at hpos ⊢
    rcases hfirst with ⟨he, _⟩ | ⟨_, hfind⟩
    · rw [he] at hpos
      exact absurd hpos (lt_irrefl _)
    · exact hfind
  · intro hall
    rcases hfirst with ⟨he, _⟩ | ⟨hlt, hfind⟩
    · exact he
    · have hmem := List.mem_of_find?_eq_some hfind
      exact absurd (hall _ hmem) (not_le.mpr hlt)

/-- The reducer on three scored planes with supports 2, 5, 5: the holder ends as
the first plane of support 5. -/
theorem dominantPlaneIdentifier_from_sentinel_witness :
    dominantPlaneIdentifier
        [{ Plane3D := { A := 1, B := 0, C := 0, D := 0 }, SupportSize := 2 },
         { Plane3D := { A := 0, B := 1, C := 0, D := 0 }, SupportSize := 5 },
         { Plane3D := { A := 0, B := 0, C := 1, D := 0 }, SupportSize := 5 }]
        { Plane3D := { A := 0, B := 0, C := 0, D := 0 }, SupportSize := 0 } =
      { Plane3D := { A := 0, B := 1, C := 0, D := 0 }, SupportSize := 5 } := by
  have h := (dominantPlaneIdentifier_from_sentinel
    [{ Plane3D := { A := 1, B := 0, C := 0, D := 0 }, SupportSize := 2 },
     { Plane3D := { A := 0, B := 1, C := 0, D := 0 }, SupportSize := 5 },
     { Plane3D := { A := 0, B := 0, C := 1, D := 0 }, SupportSize := 5 }]).2.1 (by decide)
  have hmax : ([{ Plane3D := { A := 1, B := 0, C := 0, D := 0 }, SupportSize := 2 },
     { Plane3D := { A := 0, B := 1, C := 0, D := 0 }, SupportSize := 5 },
     { Plane3D := { A := 0, B := 0, C := 1, D := 0 }, SupportSize := 5 }].map
       Plane3DwSupport.SupportSize).foldr max 0 = 5 := by decide
  rw [hmax] at h
  simpa [List.find?] using h.symm

/-! ## Geometry (C2, C8, C9) -/

theorem GetPlane_of_collinear (p0 p1 p2 : Point3D) (h : Collinear p0 p1 p2) :
    GetPlane { p0 := p0, p1 := p1, p2 := p2 } = { A := 0, B := 0, C := 0, D := 0 } := by
  obtain ⟨q, v, t0, t1, t2, h0, h1, h2⟩ := h
  subst h0 h1 h2
  ext <;> simp only [GetPlane, lineAt] <;> ring

theorem collinear_of_normal_zero (p0 p1 p2 : Point3D)
    (hA : (GetPlane { p0 := p0, p1 := p1, p2 := p2 }).A = 0)
    (hB : (GetPlane { p0 := p0, p1 := p1, p2 := p2 }).B = 0)
    (hC : (GetPlane { p0 := p0, p1 := p1, p2 := p2 }).C = 0) :
    Collinear p0 p1 p2 := by
  simp only [GetPlane] at hA hB hC
  by_cases hx : p0.X - p1.X = 0
  · by_cases hy : p0.Y - p1.Y = 0
    · by_cases hz : p0.Z - p1.Z = 0
      · refine ⟨p0, { X := p2.X - p0.X, Y := p2.Y - p0.Y, Z := p2.Z - p0.Z }, 0, 0, 1, ?_, ?_, ?_⟩
        · ext <;> simp [lineAt]
        · ext <;> simp [lineAt] <;> linarith
        · ext <;> simp [lineAt]
      · refine ⟨p0, { X := p1.X - p0.X, Y := p1.Y - p0.Y, Z := p1.Z - p0.Z }, 0, 1,
          (p0.Z - p2.Z) / (p0.Z - p1.Z), ?_, ?_, ?_⟩
        · ext <;> simp [lineAt]
        · ext <;> simp [lineAt]
        · ext <;> simp only [lineAt] <;> field_simp <;> nlinarith
    · refine ⟨p0, { X := p1.X - p0.X, Y := p1.Y - p0.Y, Z := p1.Z - p0.Z }, 0, 1,
        (p0.Y - p2.Y) / (p0.Y - p1.Y), ?_, ?_, ?_⟩
      · ext <;> simp [lineAt]
      · ext <;> simp [lineAt]
      · ext <;> simp only [lineAt] <;> field_simp <;> nlinarith
  · refine ⟨p0, { X := p1.X - p0.X, Y := p1.Y - p0.Y, Z := p1.Z - p0.Z }, 0, 1,
      (p0.X - p2.X) / (p0.X - p1.X), ?_, ?_, ?_⟩
    · ext <;> simp [lineAt]
    · ext <;> simp [lineAt]
    · ext <;> simp only [lineAt] <;> field_simp <;> nlinarith

/-- With a non-zero normal the distance is the finite quotient. -/
theorem GetDistance_of_normal_ne_zero (p : Point3D) (plane : Plane3D)
    (h : plane.A ^ 2 + plane.B ^ 2 + plane.C ^ 2 ≠ 0) :
    GetDistance p plane =
      Float64.finite (|plane.A * p.X + plane.B * p.Y + plane.C * p.Z + plane.D| /
        Real.sqrt (plane.A ^ 2 + plane.B ^ 2 + plane.C ^ 2)) := by
  have hpos : 0 < plane.A ^ 2 + plane.B ^ 2 + plane.C ^ 2 :=
    lt_of_le_of_ne (by positivity) (Ne.symm h)
  have hs : Real.sqrt (plane.A ^ 2 + plane.B ^ 2 + plane.C ^ 2) ≠ 0 :=
    ne_of_gt (Real.sqrt_pos.mpr hpos)
  simp only [GetDistance, Float64.div, ne_eq, hs, not_false_eq_true, if_true]

theorem normal_sq_eq_zero_iff (plane : Plane3D) :
    plane.A ^ 2 + plane.B ^ 2 + plane.C ^ 2 = 0 ↔ plane.A = 0 ∧ plane.B = 0 ∧ plane.C = 0 := by
  constructor
  · intro h
    have hA : plane.A ^ 2 = 0 := by nlinarith [sq_nonneg plane.A, sq_nonneg plane.B, sq_nonneg plane.C]
    have hB : plane.B ^ 2 = 0 := by nlinarith [sq_nonneg plane.A, sq_nonneg plane.B, sq_nonneg plane.C]
    have hC : plane.C ^ 2 = 0 := by nlinarith [sq_nonneg plane.A, sq_nonneg plane.B, sq_nonneg plane.C]
    exact ⟨pow_eq_zero_iff (two_ne_zero) |>.mp hA, pow_eq_zero_iff (two_ne_zero) |>.mp hB,
      pow_eq_zero_iff (two_ne_zero) |>.mp hC⟩
  · rintro ⟨hA, hB, hC⟩
    simp [hA, hB, hC]

/-- C2: three non-collinear points lie on the plane built from them: the
distance of each of them to that plane is 0. -/
theorem GetDistance_GetPlane_eq_zero (p0 p1 p2 : Point3D) (h : ¬ Collinear p0 p1 p2) :
    GetDistance p0 (GetPlane { p0 := p0, p1 := p1, p2 := p2 }) = Float64.finite 0 ∧
    GetDistance p1 (GetPlane { p0 := p0, p1 := p1, p2 := p2 }) = Float64.finite 0 ∧
    GetDistance p2 (GetPlane { p0 := p0, p1 := p1, p2 := p2 }) = Float64.finite 0 := by
  have hn : (GetPlane { p0 := p0, p1 := p1, p2 := p2 }).A ^ 2 +
      (GetPlane { p0 := p0, p1 := p1, p2 := p2 }).B ^ 2 +
      (GetPlane { p0 := p0, p1 := p1, p2 := p2 }).C ^ 2 ≠ 0 := by
    intro hz
    obtain ⟨hA, hB, hC⟩ := (normal_sq_eq_zero_iff _).mp hz
    exact h (collinear_of_normal_zero p0 p1 p2 hA hB hC)
  refine ⟨?_, ?_, ?_⟩
  · rw [GetDistance_of_normal_ne_zero _ _ hn]
    have h0 : (GetPlane { p0 := p0, p1 := p1, p2 := p2 }).A * p0.X +
        (GetPlane { p0 := p0, p1 := p1, p2 := p2 }).B * p0.Y +
        (GetPlane { p0 := p0, p1 := p1, p2 := p2 }).C * p0.Z +
        (GetPlane { p0 := p0, p1 := p1, p2 := p2 }).D = 0 := by
      simp only [GetPlane]; ring
    rw [h0]; simp
  · rw [GetDistance_of_normal_ne_zero _ _ hn]
    have h0 : (GetPlane { p0 := p0, p1 := p1, p2 := p2 }).A * p1.X +
        (GetPlane { p0 := p0, p1 := p1, p2 := p2 }).B * p1.Y +
        (GetPlane { p0 := p0, p1 := p1, p2 := p2 }).C * p1.Z +
        (GetPlane { p0 := p0, p1 := p1, p2 := p2 }).D = 0 := by
      simp only [GetPlane]; ring
    rw [h0]; simp
  · rw [GetDistance_of_normal_ne_zero _ _ hn]
    have h0 : (GetPlane { p0 := p0, p1 := p1, p2 := p2 }).A * p2.X +
        (GetPlane { p0 := p0, p1 := p1, p2 := p2 }).B * p2.Y +
        (GetPlane { p0 := p0, p1 := p1, p2 := p2 }).C * p2.Z +
        (GetPlane { p0 := p0, p1 := p1, p2 := p2 }).D = 0 := by
      simp only [GetPlane]; ring
    rw [h0]; simp

theorem not_collinear_unit_points :
    ¬ Collinear { X := 0, Y := 0, Z := 0 } { X := 1, Y := 0, Z := 0 } { X := 0, Y := 1, Z := 0 } := by
  intro hc
  have h := congrArg Plane3D.C (GetPlane_of_collinear _ _ _ hc)
  simp [GetPlane] at h

/-- The points (0,0,0), (1,0,0), (0,1,0) are not collinear and lie on their
plane. -/
theorem GetDistance_GetPlane_eq_zero_witness :
    ¬ Collinear { X := 0, Y := 0, Z := 0 } { X := 1, Y := 0, Z := 0 } { X := 0, Y := 1, Z := 0 } ∧
    GetDistance { X := 0, Y := 0, Z := 0 }
      (GetPlane { p0 := { X := 0, Y := 0, Z := 0 }, p1 := { X := 1, Y := 0, Z := 0 },
                  p2 := { X := 0, Y := 1, Z := 0 } }) = Float64.finite 0 ∧
    GetDistance { X := 1, Y := 0, Z := 0 }
      (GetPlane { p0 := { X := 0, Y := 0, Z := 0 }, p1 := { X := 1, Y := 0, Z := 0 },
                  p2 := { X := 0, Y := 1, Z := 0 } }) = Float64.finite 0 ∧
    GetDistance { X := 0, Y := 1, Z := 0 }
      (GetPlane { p0 := { X := 0, Y := 0, Z := 0 }, p1 := { X := 1, Y := 0, Z := 0 },
                  p2 := { X := 0, Y := 1, Z := 0 } }) = Float64.finite 0 :=
  ⟨not_collinear_unit_points, GetDistance_GetPlane_eq_zero _ _ _ not_collinear_unit_points⟩

/-- C8 fails as stated: for the plane (0,0,0,0) the distance is 0/0 = NaN, and
NaN >= 0 is false.  No operation rounds at this input. -/
theorem GetDistance_zero_plane_not_ge_zero :
    GetDistance { X := 1, Y := 2, Z := 3 } { A := 0, B := 0, C := 0, D := 0 } = Float64.nan ∧
    Float64.ge (GetDistance { X := 1, Y := 2, Z := 3 } { A := 0, B := 0, C := 0, D := 0 })
      (Float64.finite 0) = false := by
  have h : GetDistance { X := 1, Y := 2, Z := 3 } { A := 0, B := 0, C := 0, D := 0 } =
      Float64.nan := by
    simp [GetDistance, Float64.div]
  exact ⟨h, by rw [h]; rfl⟩

theorem log10_div_log10 (a b : ℝ) (ha : 0 < a) (hb0 : 0 < b) (hb1 : b ≠ 1) :
    Float64.div (Float64.log10 a) (Float64.log10 b) =
      Float64.finite (Real.log a / Real.log b) := by
  have hlb : Real.log b ≠ 0 := Real.log_ne_zero_of_pos_of_ne_one hb0 hb1
  have hl10 : Real.log 10 ≠ 0 := Real.log_ne_zero_of_pos_of_ne_one (by norm_num) (by norm_num)
  have hne : Real.logb 10 b ≠ 0 := by
    unfold Real.logb
    exact div_ne_zero hlb hl10
  have heq : Real.logb 10 a / Real.logb 10 b = Real.log a / Real.log b := by
    unfold Real.logb
    field_simp
  simp only [Float64.log10, ha, hb0, if_true, Float64.div, ne_eq, hne, not_false_eq_true, heq]

/-- On the domain 0 < c < 1, 0 < w < 1 the estimator returns the floor of the
ratio of natural logarithms when that floor is below 2^63, and has no defined
value otherwise. -/
theorem GetNumberOfIterations_eq (c w : ℝ) (hc0 : 0 < c) (hc1 : c < 1) (hw0 : 0 < w)
    (hw1 : w < 1) :
    GetNumberOfIterations c w =
      if ⌊Real.log (1 - c) / Real.log (1 - w ^ 3)⌋ < (2 : Int) ^ 63
      then some ⌊Real.log (1 - c) / Real.log (1 - w ^ 3)⌋ else none := by
  have hw3 : 0 < w ^ 3 := by positivity
  have hw3lt : w ^ 3 < 1 := pow_lt_one₀ (le_of_lt hw0) hw1 (by norm_num)
  have ha : 0 < 1 - c := by linarith
  have hb0 : 0 < 1 - w ^ 3 := by linarith
  have hb1 : 1 - w ^ 3 ≠ 1 := by linarith
  have hla : Real.log (1 - c) ≤ 0 := le_of_lt (Real.log_neg ha (by linarith))
  have hlb : Real.log (1 - w ^ 3) ≤ 0 := le_of_lt (Real.log_neg hb0 (by linarith))
  have hr : 0 ≤ Real.log (1 - c) / Real.log (1 - w ^ 3) := div_nonneg_of_nonpos hla hlb
  have hfl : (0 : Int) ≤ ⌊Real.log (1 - c) / Real.log (1 - w ^ 3)⌋ := Int.floor_nonneg.mpr hr
  have hlow : -(2 : Int) ^ 63 ≤ ⌊Real.log (1 - c) / Real.log (1 - w ^ 3)⌋ :=
    le_trans (by norm_num) hfl
  unfold GetNumberOfIterations
  rw [log10_div_log10 _ _ ha hb0 hb1]
  simp only [Float64.toInt, Float64.trunc, hr, if_true, hlow, true_and]

/-- The floor of log a / log b for a base b in (0,1) is k exactly when
b^(k+1) < a <= b^k. -/
theorem floor_log_ratio_eq (a b : ℝ) (ha0 : 0 < a) (hb0 : 0 < b) (hb1 : b < 1) (k : ℕ) :
    ⌊Real.log a / Real.log b⌋ = (k : Int) ↔ b ^ (k + 1) < a ∧ a ≤ b ^ k := by
  have hlb : Real.log b < 0 := Real.log_neg hb0 hb1
  rw [Int.floor_eq_iff]
  push_cast
  constructor
  · rintro ⟨h1, h2⟩
    constructor
    · rw [div_lt_iff_of_neg hlb] at h2
      have h3 : Real.log (b ^ (k + 1)) < Real.log a := by
        rw [Real.log_pow]; push_cast; exact h2
      exact (Real.log_lt_log_iff (by positivity) ha0).mp h3
    · rw [le_div_iff_of_neg hlb] at h1
      have h3 : Real.log a ≤ Real.log (b ^ k) := by
        rw [Real.log_pow]; exact h1
      exact (Real.log_le_log_iff ha0 (by positivity)).mp h3
  · rintro ⟨h1, h2⟩
    constructor
    · rw [le_div_iff_of_neg hlb]
      have h3 := (Real.log_le_log_iff ha0 (by positivity)).mpr h2
      rw [Real.log_pow] at h3
      exact h3
    · rw [div_lt_iff_of_neg hlb]
      have h3 := (Real.log_lt_log_iff (by positivity) ha0).mpr h1
      rw [Real.log_pow] at h3
      push_cast at h3
      exact h3

/-- C12: GetNumberOfIterations(0.99, 0.5) is 34, the floor of
log(1 - 0.99) / log(1 - 0.5^3). -/
theorem GetNumberOfIterations_anchor :
    GetNumberOfIterations 0.99 0.5 = some 34 ∧
    ⌊Real.log (1 - 0.99) / Real.log (1 - (0.5 : ℝ) ^ 3)⌋ = 34 := by
  have hfl : ⌊Real.log (1 - 0.99) / Real.log (1 - (0.5 : ℝ) ^ 3)⌋ = 34 := by
    have h := (floor_log_ratio_eq (1 - 0.99) (1 - (0.5 : ℝ) ^ 3) (by norm_num) (by norm_num)
      (by norm_num) 34).mpr ⟨by norm_num, by norm_num⟩
    simpa using h
  refine ⟨?_, hfl⟩
  rw [GetNumberOfIterations_eq 0.99 0.5 (by norm_num) (by norm_num) (by norm_num) (by norm_num),
    hfl]
  norm_num

/-! ## Arrival order and the maximum support (C15) -/

/-- C15: two arrival orders of the same scored planes end, from the sentinel,
with the same SupportSize in the holder. -/
theorem dominantPlaneIdentifier_size_perm (l1 l2 : List Plane3DwSupport) (h : l1.Perm l2) :
    (dominantPlaneIdentifier l1
        { Plane3D := { A := 0, B := 0, C := 0, D := 0 }, SupportSize := 0 }).SupportSize =
    (dominantPlaneIdentifier l2
        { Plane3D := { A := 0, B := 0, C := 0, D := 0 }, SupportSize := 0 }).SupportSize := by
  rw [dominantPlaneIdentifier_size, dominantPlaneIdentifier_size]
  exact List.Perm.foldr_eq' (h.map Plane3DwSupport.SupportSize)
    (fun x _ y _ z => max_left_comm y x z) 0

/-- The reducer on the two orders of two scored planes of supports 3 and 7. -/
theorem dominantPlaneIdentifier_size_perm_witness :
    ([{ Plane3D := { A := 1, B := 0, C := 0, D := 0 }, SupportSize := 3 },
      { Plane3D := { A := 0, B := 1, C := 0, D := 0 }, SupportSize := 7 }] :
        List Plane3DwSupport).Perm
      [{ Plane3D := { A := 0, B := 1, C := 0, D := 0 }, SupportSize := 7 },
       { Plane3D := { A := 1, B := 0, C := 0, D := 0 }, SupportSize := 3 }] ∧
    (dominantPlaneIdentifier
        [{ Plane3D := { A := 1, B := 0, C := 0, D := 0 }, SupportSize := 3 },
         { Plane3D := { A := 0, B := 1, C := 0, D := 0 }, SupportSize := 7 }]
        { Plane3D := { A := 0, B := 0, C := 0, D := 0 }, SupportSize := 0 }).SupportSize =
    (dominantPlaneIdentifier
        [{ Plane3D := { A := 0, B := 1, C := 0, D := 0 }, SupportSize := 7 },
         { Plane3D := { A := 1, B := 0, C := 0, D := 0 }, SupportSize := 3 }]
        { Plane3D := { A := 0, B := 0, C := 0, D := 0 }, SupportSize := 0 }).SupportSize :=
  ⟨List.Perm.swap _ _ [], dominantPlaneIdentifier_size_perm _ _ (List.Perm.swap _ _ [])⟩

/-! ## Degenerate planes (C16) -/

theorem not_inlier_and_outlier (plane : Plane3D) (eps : ℝ) (p : Point3D)
    (hin : isInlier plane eps p = true) : isOutlier plane eps p = false := by
  unfold isInlier at hin
  unfold isOutlier
  cases hd : GetDistance p plane with
  | nan => simp [hd, Float64.lt] at hin
  | negInf => simp [Float64.gt, Float64.lt]
  | posInf => simp [hd, Float64.lt] at hin
  | finite r =>
    simp only [hd, Float64.lt, decide_eq_true_eq] at hin
    simp only [Float64.gt, Float64.lt, decide_eq_false_iff_not, not_lt]
    exact le_of_lt hin

/-- The cloud splits into the points kept by GetSupportingPoints, the points
kept by RemovePlane and the points that pass neither test. -/
theorem length_eq_three_way (plane : Plane3D) (eps : ℝ) (cloud : List Point3D) :
    cloud.length =
      (cloud.filter (isInlier plane eps)).length + (cloud.filter (isOutlier plane eps)).length +
        (cloud.filter (fun p => !isInlier plane eps p && !isOutlier plane eps p)).length := by
  induction cloud with
  | nil => simp
  | cons x xs ih =>
    by_cases hin : isInlier plane eps x = true
    · have hout := not_inlier_and_outlier plane eps x hin
      simp only [List.filter_cons, hin, hout, List.length_cons, if_true, Bool.not_true,
        Bool.false_and, Bool.false_eq_true, if_false]
      omega
    · have hin2 : isInlier plane eps x = false := by simpa using hin
      by_cases hout : isOutlier plane eps x = true
      · simp only [List.filter_cons, hin2, hout, List.length_cons, if_true, Bool.not_true,
          Bool.and_false, Bool.false_eq_true, if_false]
        omega
      · have hout2 : isOutlier plane eps x = false := by simpa using hout
        simp only [List.filter_cons, hin2, hout2, List.length_cons, Bool.not_false,
          Bool.and_self, if_true, Bool.false_eq_true, if_false]
        omega

/-- C19: GetSupportingPoints and RemovePlane return sublists of the cloud that
have no point in common; their lengths add up to at most the length of the
cloud, so the remaining cloud never grows; the sum is smaller than the length of
the cloud exactly when the distance of some point is neither < eps nor > eps. -/
theorem extraction_sublists (plane : Plane3D) (cloud : List Point3D) (eps : ℝ) :
    (GetSupportingPoints plane cloud eps).Sublist cloud ∧
    (RemovePlane plane cloud eps).Sublist cloud ∧
    List.Disjoint (GetSupportingPoints plane cloud eps) (RemovePlane plane cloud eps) ∧
    (GetSupportingPoints plane cloud eps).length + (RemovePlane plane cloud eps).length ≤
      cloud.length ∧
    (RemovePlane plane cloud eps).length ≤ cloud.length ∧
    ((GetSupportingPoints plane cloud eps).length + (RemovePlane plane cloud eps).length <
        cloud.length ↔
      ∃ p ∈ cloud, Float64.lt (GetDistance p plane) (Float64.finite eps) = false ∧
        Float64.gt (GetDistance p plane) (Float64.finite eps) = false) := by
  rw [GetSupportingPoints_eq_filter, RemovePlane_eq_filter]
  have h3 := length_eq_three_way plane eps cloud
  refine ⟨List.filter_sublist _, List.filter_sublist _, ?_, by omega,
    List.length_filter_le _ _, ?_⟩
  · intro p hp1 hp2
    have h1 := (List.mem_filter.mp hp1).2
    have h2 := (List.mem_filter.mp hp2).2
    rw [not_inlier_and_outlier plane eps p h1] at h2
    exact absurd h2 (by simp)
  · constructor
    · intro hlt
      have hpos : 0 < (cloud.filter
          (fun p => !isInlier plane eps p && !isOutlier plane eps p)).length := by omega
      obtain ⟨p, hp⟩ := List.exists_mem_of_length_pos hpos
      have hm := List.mem_filter.mp hp
      refine ⟨p, hm.1, ?_⟩
      simpa [isInlier, isOutlier] using hm.2
    · rintro ⟨p, hp, h1, h2⟩
      have hmem : p ∈ cloud.filter
          (fun p => !isInlier plane eps p && !isOutlier plane eps p) := by
        rw [List.mem_filter]
        exact ⟨hp, by simp [isInlier, isOutlier, h1, h2]⟩
      have hpos := List.length_pos_of_mem hmem
      omega

theorem RemovePlane_idem (plane : Plane3D) (cloud : List Point3D) (eps : ℝ) :
    RemovePlane plane (RemovePlane plane cloud eps) eps = RemovePlane plane cloud eps ∧
    GetSupportingPoints plane (RemovePlane plane cloud eps) eps = [] ∧
    (GetSupport plane (RemovePlane plane cloud eps) eps).SupportSize = 0 := by
  have hnil : (RemovePlane plane cloud eps).filter (isInlier plane eps) = [] := by
    rw [RemovePlane_eq_filter, List.filter_eq_nil_iff]
    intro p hp hin
    have hout := (List.mem_filter.mp hp).2
    rw [not_inlier_and_outlier plane eps p hin] at hout
    exact absurd hout (by simp)
  refine ⟨?_, ?_, ?_⟩
  · rw [RemovePlane_eq_filter plane (RemovePlane plane cloud eps), RemovePlane_eq_filter,
      List.filter_filter]
    simp
  · rw [GetSupportingPoints_eq_filter, hnil]
  · rw [GetSupport_size_eq_countP, List.countP_eq_length_filter, hnil]
    simp

/-- C20: for a plane with a non-zero normal, removing the plane a second time
changes nothing, and the remaining cloud has no supporting point of the plane:
GetSupportingPoints is empty on it and GetSupport counts 0. -/
theorem RemovePlane_idempotent (plane : Plane3D) (cloud : List Point3D) (eps : ℝ)
    (_hn : ¬ (plane.A = 0 ∧ plane.B = 0 ∧ plane.C = 0)) :
    RemovePlane plane (RemovePlane plane cloud eps) eps = RemovePlane plane cloud eps ∧
    GetSupportingPoints plane (RemovePlane plane cloud eps) eps = [] ∧
    (GetSupport plane (RemovePlane plane cloud eps) eps).SupportSize = 0 :=
  RemovePlane_idem plane cloud eps

/-- The plane z = 0, the cloud of (0,0,0) and (0,0,5), eps = 1: the remaining
cloud is the point (0,0,5), and removing the plane again keeps it. -/
theorem RemovePlane_idempotent_witness :
    ¬ ((0 : ℝ) = 0 ∧ (0 : ℝ) = 0 ∧ (1 : ℝ) = 0) ∧
    RemovePlane { A := 0, B := 0, C := 1, D := 0 }
        (RemovePlane { A := 0, B := 0, C := 1, D := 0 }
          [{ X := 0, Y := 0, Z := 0 }, { X := 0, Y := 0, Z := 5 }] 1) 1 =
      RemovePlane { A := 0, B := 0, C := 1, D := 0 }
        [{ X := 0, Y := 0, Z := 0 }, { X := 0, Y := 0, Z := 5 }] 1 ∧
    RemovePlane { A := 0, B := 0, C := 1, D := 0 }
        [{ X := 0, Y := 0, Z := 0 }, { X := 0, Y := 0, Z := 5 }] 1 =
      [{ X := 0, Y := 0, Z := 5 }] := by
  refine ⟨by norm_num, (RemovePlane_idempotent { A := 0, B := 0, C := 1, D := 0 }
    [{ X := 0, Y := 0, Z := 0 }, { X := 0, Y := 0, Z := 5 }] 1 (by norm_num)).1, ?_⟩
  simp [RemovePlane, GetDistance, Float64.div, Float64.gt, Float64.lt]

/-! ## The bounded limiter (C13) -/

theorem takeNLoop_eq (tripletReceiver : Nat → Triplet) (nArrays : Int) (m : Nat) :
    ∀ (i : Int) (received : Nat) (out : List Triplet), (nArrays - i).toNat = m →
      takeNLoop tripletReceiver nArrays i received out =
        (received + m,
          out ++ (List.range m).map (fun j => tripletReceiver (received + j))) := by
  induction m with
  | zero =>
    intro i received out hm
    have hi : ¬ i < nArrays := by omega
    rw [takeNLoop, if_neg hi]
    simp
  | succ m ih =>
    intro i received out hm
    have hi : i < nArrays := by omega
    rw [takeNLoop, if_pos hi, ih (i + 1) (received + 1) _ (by omega)]
    rw [List.range_succ_eq_map]
    simp only [List.map_cons, List.map_map, List.append_assoc, List.singleton_append,
      Nat.add_zero, Prod.mk.injEq]
    refine ⟨by omega, ?_⟩
    congr 2
    apply List.map_congr_left
    intro j _
    simp only [Function.comp_apply]
    congr 1
    omega

theorem takeN_eq_takeNLoop (tripletReceiver : Nat → Triplet) (nArrays : Int) :
    takeNLoop tripletReceiver nArrays 0 0 [] = (nArrays.toNat, takeN tripletReceiver nArrays) := by
  rw [takeNLoop_eq tripletReceiver nArrays nArrays.toNat 0 0 [] (by simp)]
  simp [takeN]

/-- C13: for N >= 0 the loop of takeN ends after receiving exactly N triplets
from the upstream, and the closed output carries exactly N items, the first N
items of the upstream in their order; items of the upstream from the N-th on
have no influence. -/
theorem takeN_first_N (upstream : Nat → Triplet) (N : Int) (hN : 0 ≤ N) :
    ((takeNLoop upstream N 0 0 []).1 : Int) = N ∧
    (takeNLoop upstream N 0 0 []).2 = takeN upstream N ∧
    ((takeN upstream N).length : Int) = N ∧
    (∀ k : Nat, (k : Int) < N → (takeN upstream N).get? k = some (upstream k)) ∧
    (∀ upstream2 : Nat → Triplet, (∀ k : Nat, (k : Int) < N → upstream2 k = upstream k) →
      takeNLoop upstream2 N 0 0 [] = takeNLoop upstream N 0 0 []) := by
  rw [takeN_eq_takeNLoop]
  refine ⟨by simpa using Int.toNat_of_nonneg hN, rfl, ?_, ?_, ?_⟩
  · simpa [takeN] using Int.toNat_of_nonneg hN
  · intro k hk
    have hk2 : k < N.toNat := by omega
    simp [takeN, List.getElem?_range hk2, hk2]
  · intro upstream2 h
    rw [takeN_eq_takeNLoop]
    simp only [takeN, Prod.mk.injEq, true_and]
    apply List.map_congr_left
    intro k hk
    have hk2 : k < N.toNat := List.mem_range.mp hk
    exact h k (by omega)

/-- The limiter with N = 2 on a stream of triplets. -/
theorem takeN_first_N_witness :
    (0 : Int) ≤ 2 ∧
    ((takeNLoop
        (fun k => { p0 := { X := k, Y := 0, Z := 0 }, p1 := { X := k, Y := 1, Z := 0 },
                    p2 := { X := k, Y := 0, Z := 1 } }) 2 0 0 []).1 : Int) = 2 ∧
    (takeNLoop
        (fun k => { p0 := { X := k, Y := 0, Z := 0 }, p1 := { X := k, Y := 1, Z := 0 },
                    p2 := { X := k, Y := 0, Z := 1 } }) 2 0 0 []).2 =
      takeN
        (fun k => { p0 := { X := k, Y := 0, Z := 0 }, p1 := { X := k, Y := 1, Z := 0 },
                    p2 := { X := k, Y := 0, Z := 1 } }) 2 :=
  ⟨by decide,
    (takeN_first_N
      (fun k => { p0 := { X := k, Y := 0, Z := 0 }, p1 := { X := k, Y := 1, Z := 0 },
                  p2 := { X := k, Y := 0, Z := 1 } }) 2 (by decide)).1,
    (takeN_first_N
      (fun k => { p0 := { X := k, Y := 0, Z := 0 }, p1 := { X := k, Y := 1, Z := 0 },
                  p2 := { X := k, Y := 0, Z := 1 } }) 2 (by decide)).2.1⟩

/-! ## One round on a cloud with a dominant plane z = 0 (C11) -/

theorem getElem?_decompose {β : Type} (l : List β) (i : Nat) (x : β) (h : l[i]? = some x) :
    ∃ pre post, l = pre ++ x :: post ∧ ∀ y, l.set i y = pre ++ y :: post := by
  induction l generalizing i with
  | nil => simp at h
  | cons a as ih =>
    cases i with
    | zero =>
      simp only [List.getElem?_cons_zero, Option.some.injEq] at h
      subst h
      exact ⟨[], as, rfl, fun y => rfl⟩
    | succ j =>
      simp only [List.getElem?_cons_succ] at h
      obtain ⟨pre, post, h1, h2⟩ := ih j h
      refine ⟨a :: pre, post, by rw [h1]; rfl, fun y => ?_⟩
      rw [List.set_cons_succ, h2 y]
      rfl

/-- A step of the goroutines of one worker keeps the invariant when it keeps
the value and the consistency of the worker, and changes the delivered
sequence and the counter together with the flags forwarded and done. -/
theorem FanInInv.update {α : Type} (values : List α) (pre post : List (Worker α))
    (w w2 : Worker α) (wg wg2 : Int) (delivered delivered2 : List α) (closed : Bool)
    (hinv : FanInInv values
      { workers := pre ++ w :: post, wg := wg, delivered := delivered, closed := closed,
        panicked := false })
    (hval : w2.value = w.value) (hwf : w2.wf)
    (hfw : (w2.forwarded = w.forwarded ∧ delivered2 = delivered) ∨
      (w.forwarded = false ∧ w2.forwarded = true ∧ delivered2 = delivered ++ [w.value]))
    (hdone : (w2.done = w.done ∧ wg2 = wg) ∨
      (w.done = false ∧ w2.done = true ∧ wg2 = wg - 1 ∧ closed = false)) :
    FanInInv values
      { workers := pre ++ w2 :: post, wg := wg2, delivered := delivered2, closed := closed,
        panicked := false } := by
  obtain ⟨h1, h2, h3, h4, h5, _⟩ := hinv
  simp only at h1 h2 h3 h4 h5
  refine ⟨?_, ?_, ?_, ?_, ?_, rfl⟩
  · intro x hx
    simp only [List.mem_append, List.mem_cons] at hx
    rcases hx with hx | rfl | hx
    · exact h1 x (by simp [hx])
    · exact hwf
    · exact h1 x (by simp [hx])
  · simp only [List.map_append, List.map_cons, hval] at h2 ⊢
    exact h2
  · simp only [List.filter_append, List.filter_cons, List.map_append] at h3 ⊢
    rcases hfw with ⟨e1, e2⟩ | ⟨e1, e2, e3⟩
    · rw [e1, e2]
      by_cases hf : w.forwarded = true
      · simpa [hf, hval] using h3
      · simpa [hf, hval] using h3
    · rw [e2, e3]
      rw [e1] at h3
      simp only [Bool.false_eq_true, if_false, if_true, List.map_cons, hval] at h3 ⊢
      exact (List.perm_append_singleton _ _).trans
        ((List.Perm.cons _ h3).trans List.perm_middle.symm)
  · simp only [List.filter_append, List.filter_cons, List.length_append] at h4 ⊢
    rcases hdone with ⟨e1, e2⟩ | ⟨e1, e2, e3, _⟩
    · rw [e2]
      cases hd : w.done with
      | false =>
        rw [hd] at e1
        simpa [hd, e1] using h4
      | true =>
        rw [hd] at e1
        simpa [hd, e1] using h4
    · simp only [e1, e2, Bool.not_false, Bool.not_true, if_true, Bool.false_eq_true, if_false,
        List.length_cons] at h4 ⊢
      rw [e3, h4]
      push_cast
      ring
  · intro hc x hx
    have h5c := h5 hc
    simp only [List.mem_append, List.mem_cons] at hx
    rcases hx with hx | rfl | hx
    · exact h5c x (by simp [hx])
    · rcases hdone with ⟨e1, _⟩ | ⟨_, _, _, e4⟩
      · rw [e1]
        exact h5c w (by simp)
      · rw [e4] at hc
        exact absurd hc (by simp)
    · exact h5c x (by simp [hx])

theorem steps_update {α : Type} (pre post : List (Worker α)) (w w2 : Worker α)
    (wg wg2 : Int) (delivered delivered2 : List α) (closed panicked panicked2 : Bool)
    (h : w2.taken = w.taken + 1) :
    FanInState.steps
      { workers := pre ++ w2 :: post, wg := wg2, delivered := delivered2, closed := closed,
        panicked := panicked2 } =
    FanInState.steps
      { workers := pre ++ w :: post, wg := wg, delivered := delivered, closed := closed,
        panicked := panicked } + 1 := by
  simp only [FanInState.steps, List.map_append, List.map_cons, List.sum_append, List.sum_cons, h]
  omega

/-- Every step keeps the invariant and is counted by the state. -/
theorem fanInStep_inv {α : Type} (values : List α) (s s2 : FanInState α) (a : Action)
    (hinv : FanInInv values s) (h : fanInStep s a = some s2) :
    FanInInv values s2 ∧ s2.steps = s.steps + 1 := by
  obtain ⟨workers, wg, delivered, closed, panicked⟩ := s
  have hp : panicked = false := hinv.noPanic
  subst hp
  cases a with
  | workerSend i =>
    cases hg : workers[i]? with
    | none => simp [fanInStep, hg] at h
    | some w =>
      obtain ⟨pre, post, hl, hset⟩ := getElem?_decompose workers i w hg
      subst hl
      have hw : w.wf := hinv.wf w (by simp)
      simp only [fanInStep, List.get?_eq_getElem?, hg, hset, true_and] at h
      split at h
      · rename_i hs
        simp only [Option.some.injEq] at h
        subst h
        obtain ⟨value, sent, chanClosed, buffer, holding, done⟩ := w
        simp only at hs
        subst hs
        simp only [Worker.wf, true_implies] at hw
        obtain ⟨⟨h1, h2, h3, h4⟩, _⟩ := hw
        subst h1 h2 h3 h4
        refine ⟨FanInInv.update values pre post _ _ wg wg delivered delivered closed hinv rfl
          ?_ (Or.inl ⟨rfl, rfl⟩) (Or.inl ⟨rfl, rfl⟩), steps_update _ _ _ _ _ _ _ _ _ _ _ rfl⟩
        simp [Worker.wf]
      · simp at h
  | workerClose i =>
    cases hg : workers[i]? with
    | none => simp [fanInStep, hg] at h
    | some w =>
      obtain ⟨pre, post, hl, hset⟩ := getElem?_decompose workers i w hg
      subst hl
      have hw : w.wf := hinv.wf w (by simp)
      simp only [fanInStep, List.get?_eq_getElem?, hg, hset, true_and] at h
      split at h
      · rename_i hs
        simp only [Option.some.injEq] at h
        subst h
        obtain ⟨value, sent, chanClosed, buffer, holding, done⟩ := w
        simp only at hs
        obtain ⟨hs1, hs2⟩ := hs
        subst hs1 hs2
        simp only [Worker.wf] at hw
        have hd : done = false := by
          cases done with
          | false => rfl
          | true => simp at hw
        subst hd
        refine ⟨FanInInv.update values pre post _ _ wg wg delivered delivered closed hinv rfl
          ?_ (Or.inl ⟨rfl, rfl⟩) (Or.inl ⟨rfl, rfl⟩), steps_update _ _ _ _ _ _ _ _ _ _ _ ?_⟩
        · simpa [Worker.wf] using hw
        · cases buffer <;> cases holding <;> simp [Worker.taken, Worker.forwarded]
      · simp at h
  | outputReceive i =>
    cases hg : workers[i]? with
    | none => simp [fanInStep, hg] at h
    | some w =>
      obtain ⟨pre, post, hl, hset⟩ := getElem?_decompose workers i w hg
      subst hl
      have hw : w.wf := hinv.wf w (by simp)
      obtain ⟨value, sent, chanClosed, buffer, holding, done⟩ := w
      cases buffer with
      | none => simp [fanInStep, hg] at h
      | some v =>
        simp only [fanInStep, List.get?_eq_getElem?, hg, hset, true_and] at h
        split at h
        · rename_i hs
          simp only [Option.some.injEq] at h
          subst h
          obtain ⟨hs1, hs2⟩ := hs
          subst hs1
          simp only [Worker.wf] at hw
          cases sent with
          | false => simp at hw
          | true =>
            cases holding with
            | some x => simp at hs2
            | none =>
              have hv : v = value := by simpa using hw
              subst hv
              refine ⟨FanInInv.update values pre post _ _ wg wg delivered delivered closed hinv
                rfl ?_ (Or.inl ⟨rfl, rfl⟩) (Or.inl ⟨rfl, rfl⟩),
                steps_update _ _ _ _ _ _ _ _ _ _ _ ?_⟩
              · simp [Worker.wf]
              · simp [Worker.taken, Worker.forwarded]
        · simp at h
  | outputSend i =>
    cases hg : workers[i]? with
    | none => simp [fanInStep, hg] at h
    | some w =>
      obtain ⟨pre, post, hl, hset⟩ := getElem?_decompose workers i w hg
      subst hl
      have hw : w.wf := hinv.wf w (by simp)
      obtain ⟨value, sent, chanClosed, buffer, holding, done⟩ := w
      cases holding with
      | none => simp [fanInStep, hg] at h
      | some v =>
        simp only [Worker.wf] at hw
        cases sent with
        | false => simp at hw
        | true =>
          have hv : v = value ∧ buffer = none ∧ done = false := by
            rcases hw.2.2.1 with h0 | ⟨h1, h2, h3⟩
            · simp at h0
            · exact ⟨by simpa using h1, h2, h3⟩
          obtain ⟨hv1, hv2, hv3⟩ := hv
          subst hv1 hv2 hv3
          cases closed with
          | true =>
            have := hinv.closedDone rfl _ (List.mem_append_right pre (List.mem_cons_self _ _))
            simp at this
          | false =>
            simp only [fanInStep, List.get?_eq_getElem?, hg, hset, if_true, Bool.false_eq_true,
              if_false, Option.some.injEq] at h
            subst h
            refine ⟨FanInInv.update values pre post _ _ wg wg delivered _ false hinv
              rfl ?_ (Or.inr ⟨rfl, rfl, rfl⟩) (Or.inl ⟨rfl, rfl⟩),
              steps_update _ _ _ _ _ _ _ _ _ _ _ ?_⟩
            · simp [Worker.wf]
            · simp [Worker.taken, Worker.forwarded]
  | outputExit i =>
    cases hg : workers[i]? with
    | none => simp [fanInStep, hg] at h
    | some w =>
      obtain ⟨pre, post, hl, hset⟩ := getElem?_decompose workers i w hg
      subst hl
      have hw : w.wf := hinv.wf w (by simp)
      simp only [fanInStep, List.get?_eq_getElem?, hg, hset, true_and] at h
      split at h
      · rename_i hs
        simp only [Option.some.injEq] at h
        subst h
        obtain ⟨value, sent, chanClosed, buffer, holding, done⟩ := w
        simp only [Option.isNone_iff_eq_none] at hs
        obtain ⟨hs1, hs2, hs3, hs4⟩ := hs
        subst hs1 hs2 hs3 hs4
        simp only [Worker.wf] at hw
        have hsent : sent = true := by
          cases sent with
          | true => rfl
          | false => simp at hw
        subst hsent
        have hclosed : closed = false := by
          cases closed with
          | false => rfl
          | true =>
            have := hinv.closedDone rfl _ (List.mem_append_right pre (List.mem_cons_self _ _))
            simp at this
        subst hclosed
        have hcount := hinv.count
        simp only [List.filter_append, List.filter_cons, Bool.not_false, if_true,
          List.length_append, List.length_cons] at hcount
        have hnp : decide (wg - 1 < 0) = false := by
          rw [decide_eq_false_iff_not]
          omega
        rw [hnp]
        refine ⟨FanInInv.update values pre post _ _ wg (wg - 1) delivered delivered false hinv
          rfl ?_ (Or.inl ⟨rfl, rfl⟩) (Or.inr ⟨rfl, rfl, rfl, rfl⟩),
          steps_update _ _ _ _ _ _ _ _ _ _ _ ?_⟩
        · simp [Worker.wf]
        · simp [Worker.taken, Worker.forwarded]
      · simp at h
  | closeMerged =>
    simp only [fanInStep, true_and] at h
    split at h
    · rename_i hs
      simp only [Option.some.injEq] at h
      subst h
      obtain ⟨hs1, hs2⟩ := hs
      subst hs1 hs2
      obtain ⟨h1, h2, h3, h4, _, _⟩ := hinv
      simp only at h1 h2 h3 h4
      refine ⟨⟨h1, h2, h3, h4, ?_, rfl⟩, by simp [FanInState.steps]⟩
      intro _ x hx
      have hnil : workers.filter (fun w => !w.done) = [] := by
        have : (workers.filter (fun w => !w.done)).length = 0 := by exact_mod_cast h4.symm
        exact List.length_eq_zero.mp this
      have := (List.filter_eq_nil_iff.mp hnil) x hx
      simpa using this
    · simp at h

theorem fanInInit_inv {α : Type} (values : List α) :
    FanInInv values (fanInInit values) ∧ (fanInInit values).steps = 0 := by
  refine ⟨⟨?_, ?_, ?_, ?_, ?_, rfl⟩, ?_⟩
  · intro w hw
    simp only [fanInInit, List.mem_map] at hw
    obtain ⟨v, _, rfl⟩ := hw
    simp [Worker.wf]
  · simp [fanInInit, Function.comp_def]
  · simp [fanInInit, List.filter_map, Function.comp_def, Worker.forwarded]
  · simp [fanInInit, List.filter_map, Function.comp_def]
  · intro h
    simp [fanInInit] at h
  · simp [fanInInit, FanInState.steps, Function.comp_def, Worker.taken, Worker.forwarded]

/-- The invariant holds after every schedule, and the state counts the steps. -/
theorem fanInRun_inv {α : Type} (values : List α) (sched : List Action) :
    ∀ (s1 s2 : FanInState α), FanInInv values s1 → fanInRun s1 sched = some s2 →
      FanInInv values s2 ∧ s2.steps = s1.steps + sched.length := by
  induction sched with
  | nil =>
    intro s1 s2 hinv h
    simp only [fanInRun, Option.some.injEq] at h
    subst h
    exact ⟨hinv, rfl⟩
  | cons a rest ih =>
    intro s1 s2 hinv h
    simp only [fanInRun] at h
    cases hs : fanInStep s1 a with
    | none => simp [hs] at h
    | some s3 =>
      rw [hs] at h
      obtain ⟨hinv3, hsteps3⟩ := fanInStep_inv values s1 s3 a hinv hs
      obtain ⟨hinv2, hsteps2⟩ := ih s3 s2 hinv3 h
      refine ⟨hinv2, ?_⟩
      rw [hsteps2, hsteps3, List.length_cons]
      omega

theorem Worker.taken_le {α : Type} (w : Worker α) : w.taken ≤ 5 := by
  unfold Worker.taken
  split_ifs <;> omega

theorem sum_taken_le {α : Type} (l : List (Worker α)) :
    (l.map Worker.taken).sum ≤ 5 * l.length := by
  induction l with
  | nil => simp
  | cons w ws ih =>
    have := Worker.taken_le w
    simp only [List.map_cons, List.sum_cons, List.length_cons]
    omega

theorem FanInState.steps_le {α : Type} (s : FanInState α) : s.steps ≤ 5 * s.workers.length + 1 := by
  have := sum_taken_le s.workers
  unfold FanInState.steps
  split_ifs <;> omega

/-- A worker whose output goroutine has called Done can take no step. -/
theorem Worker.wf_done {α : Type} (w : Worker α) (hw : w.wf) (hd : w.done = true) :
    w.sent = true ∧ w.chanClosed = true ∧ w.buffer = none ∧ w.holding = none := by
  obtain ⟨c1, _, _, c4⟩ := hw
  obtain ⟨h1, h2, h3⟩ := c4 hd
  refine ⟨?_, h1, h2, h3⟩
  cases hs : w.sent with
  | true => rfl
  | false =>
    have := (c1 hs).1
    rw [h1] at this
    exact absurd this (by simp)

/-- Once the merged channel is closed no goroutine can take a step. -/
theorem fanInStep_closed {α : Type} (values : List α) (s : FanInState α)
    (hinv : FanInInv values s) (hc : s.closed = true) (a : Action) : fanInStep s a = none := by
  have hall := hinv.closedDone hc
  have hfacts : ∀ (i : Nat) (w : Worker α), s.workers[i]? = some w →
      w.sent = true ∧ w.chanClosed = true ∧ w.buffer = none ∧ w.holding = none ∧
        w.done = true := by
    intro i w hg
    have hm : w ∈ s.workers := List.getElem?_mem hg
    obtain ⟨h1, h2, h3, h4⟩ := Worker.wf_done w (hinv.wf w hm) (hall w hm)
    exact ⟨h1, h2, h3, h4, hall w hm⟩
  cases a with
  | workerSend i =>
    cases hg : s.workers[i]? with
    | none => simp [fanInStep, hg]
    | some w => simp [fanInStep, hg, (hfacts i w hg).1]
  | workerClose i =>
    cases hg : s.workers[i]? with
    | none => simp [fanInStep, hg]
    | some w => simp [fanInStep, hg, (hfacts i w hg).2.1]
  | outputReceive i =>
    cases hg : s.workers[i]? with
    | none => simp [fanInStep, hg]
    | some w => simp [fanInStep, hg, (hfacts i w hg).2.2.1]
  | outputSend i =>
    cases hg : s.workers[i]? with
    | none => simp [fanInStep, hg]
    | some w => simp [fanInStep, hg, (hfacts i w hg).2.2.2.1]
  | outputExit i =>
    cases hg : s.workers[i]? with
    | none => simp [fanInStep, hg]
    | some w => simp [fanInStep, hg, (hfacts i w hg).2.2.2.2]
  | closeMerged => simp [fanInStep, hc]

/-- While the merged channel is open some goroutine can take a step. -/
theorem fanInStep_progress {α : Type} (values : List α) (s : FanInState α)
    (hinv : FanInInv values s) (hc : s.closed = false) :
    ∃ a, (fanInStep s a).isSome = true := by
  have hnp := hinv.noPanic
  by_cases hall : ∀ w ∈ s.workers, w.done = true
  · refine ⟨Action.closeMerged, ?_⟩
    have hnil : s.workers.filter (fun w => !w.done) = [] := by
      rw [List.filter_eq_nil_iff]
      intro w hw
      simp [hall w hw]
    have hwg : s.wg = 0 := by
      rw [hinv.count, hnil]
      rfl
    simp [fanInStep, hnp, hwg, hc]
  · push_neg at hall
    obtain ⟨w, hw, hd⟩ := hall
    have hd2 : w.done = false := by simpa using hd
    obtain ⟨i, hg⟩ := List.mem_iff_getElem?.mp hw
    obtain ⟨c1, c2, c3, _⟩ := hinv.wf w hw
    cases hs : w.sent with
    | false =>
      exact ⟨Action.workerSend i, by simp [fanInStep, hg, hnp, hs]⟩
    | true =>
      rcases c2 with hb | ⟨hb, hh, _⟩
      · rcases c3 with hh | ⟨hh, _, _⟩
        · cases hcc : w.chanClosed with
          | false =>
            exact ⟨Action.workerClose i, by simp [fanInStep, hg, hnp, hs, hcc]⟩
          | true =>
            exact ⟨Action.outputExit i, by simp [fanInStep, hg, hnp, hd2, hh, hb, hcc]⟩
        · exact ⟨Action.outputSend i, by simp [fanInStep, hg, hnp, hh, hc]⟩
      · exact ⟨Action.outputReceive i, by simp [fanInStep, hg, hnp, hb, hd2, hh]⟩

/-- From every state that satisfies the invariant the goroutines can run on
until the merged channel is closed. -/
theorem fanInRun_completes {α : Type} (values : List α) (n : Nat) :
    ∀ s : FanInState α, FanInInv values s → 5 * s.workers.length + 1 - s.steps ≤ n →
      ∃ rest s2, fanInRun s rest = some s2 ∧ s2.closed = true := by
  induction n with
  | zero =>
    intro s hinv hn
    cases hc : s.closed with
    | true => exact ⟨[], s, rfl, hc⟩
    | false =>
      obtain ⟨a, ha⟩ := fanInStep_progress values s hinv hc
      obtain ⟨s3, hs3⟩ := Option.isSome_iff_exists.mp ha
      obtain ⟨hinv3, hsteps3⟩ := fanInStep_inv values s s3 a hinv hs3
      have hle := FanInState.steps_le s3
      have hlen : s3.workers.length = s.workers.length := by
        rw [← List.length_map s3.workers Worker.value, ← List.length_map s.workers Worker.value,
          hinv3.vals, hinv.vals]
      omega
  | succ n ih =>
    intro s hinv hn
    cases hc : s.closed with
    | true => exact ⟨[], s, rfl, hc⟩
    | false =>
      obtain ⟨a, ha⟩ := fanInStep_progress values s hinv hc
      obtain ⟨s3, hs3⟩ := Option.isSome_iff_exists.mp ha
      obtain ⟨hinv3, hsteps3⟩ := fanInStep_inv values s s3 a hinv hs3
      have hlen : s3.workers.length = s.workers.length := by
        rw [← List.length_map s3.workers Worker.value, ← List.length_map s.workers Worker.value,
          hinv3.vals, hinv.vals]
      obtain ⟨rest, s2, hrun, hcl⟩ := ih s3 hinv3 (by omega)
      exact ⟨a :: rest, s2, by simp [fanInRun, hs3, hrun], hcl⟩

/-- An index of a list s ++ r as an index of s ++ x :: r. -/
theorem getElem?_insert_middle {α : Type} (s r : List α) (x : α) (i : Nat) :
    (s ++ x :: r)[if i < s.length then i else i + 1]? = (s ++ r)[i]? := by
  by_cases hi : i < s.length
  · rw [if_pos hi, List.getElem?_append_left hi, List.getElem?_append_left hi]
  · rw [if_neg hi, List.getElem?_append_right (by omega), List.getElem?_append_right (by omega)]
    have e : i + 1 - s.length = (i - s.length) + 1 := by omega
    rw [e, List.getElem?_cons_succ]

/-- Every rearrangement of a list is read off the list by a rearrangement of
its indices. -/
theorem exists_arrival_of_perm {α : Type} (l1 : List α) :
    ∀ l2 : List α, l1.Perm l2 →
      ∃ arrival : List Nat,
        arrival.Perm (List.range l2.length) ∧ arrival.filterMap (fun i => l2.get? i) = l1 := by
  induction l1 with
  | nil =>
    intro l2 h
    have h2 : l2 = [] := h.symm.eq_nil
    subst h2
    exact ⟨[], by simp, rfl⟩
  | cons x t ih =>
    intro l2 h
    have hx : x ∈ l2 := h.subset (List.mem_cons_self x t)
    obtain ⟨s, r, rfl⟩ := List.append_of_mem hx
    have ht : t.Perm (s ++ r) := (h.trans List.perm_middle).cons_inv
    obtain ⟨a, ha, hfa⟩ := ih (s ++ r) ht
    have hmem : ∀ i, i ∈ a ↔ i < s.length + r.length := by
      intro i
      rw [ha.mem_iff, List.mem_range, List.length_append]
    have hnd : a.Nodup := ha.nodup_iff.mpr (List.nodup_range _)
    have hinj : Function.Injective (fun i : Nat => if i < s.length then i else i + 1) := by
      intro i j hij
      simp only at hij
      split_ifs at hij <;> omega
    refine ⟨s.length :: a.map (fun i => if i < s.length then i else i + 1), ?_, ?_⟩
    · rw [List.perm_ext_iff_of_nodup]
      · intro j
        simp only [List.mem_cons, List.mem_map, List.mem_range, List.length_append,
          List.length_cons]
        constructor
        · rintro (rfl | ⟨i, hi, rfl⟩)
          · omega
          · have := (hmem i).mp hi
            split_ifs <;> omega
        · intro hj
          by_cases h1 : j < s.length
          · exact Or.inr ⟨j, (hmem j).mpr (by omega), by rw [if_pos h1]⟩
          · by_cases h2 : j = s.length
            · exact Or.inl h2
            · refine Or.inr ⟨j - 1, (hmem (j - 1)).mpr (by omega), ?_⟩
              rw [if_neg (by omega)]
              omega
      · rw [List.nodup_cons]
        refine ⟨?_, hnd.map hinj⟩
        simp only [List.mem_map, not_exists, not_and]
        intro i _ hi
        split_ifs at hi <;> omega
      · exact List.nodup_range _
    · have h0 : (s ++ x :: r).get? s.length = some x := by
        rw [List.get?_eq_getElem?, List.getElem?_append_right (le_refl _)]
        simp
      rw [List.filterMap_cons, h0, List.filterMap_map]
      have hfun : ((fun i => (s ++ x :: r).get? i) ∘ fun i => if i < s.length then i else i + 1) =
          fun i => (s ++ r).get? i := by
        funext i
        simp only [Function.comp, List.get?_eq_getElem?]
        exact getElem?_insert_middle s r x i
      rw [hfun, hfa]

/-- A completed run of the fan-in delivers the worker results in some order. -/
theorem fanInRun_closed_perm {α : Type} (values : List α) (sched : List Action)
    (s : FanInState α) (h : fanInRun (fanInInit values) sched = some s)
    (hc : s.closed = true) : s.delivered.Perm values := by
  obtain ⟨hinit, _⟩ := fanInInit_inv values
  obtain ⟨hinv, _⟩ := fanInRun_inv values sched (fanInInit values) s hinit h
  have hall : s.workers.filter Worker.forwarded = s.workers := by
    rw [List.filter_eq_self]
    intro w hw
    obtain ⟨h1, _, h3, h4⟩ := Worker.wf_done w (hinv.wf w hw) (hinv.closedDone hc w hw)
    simp [Worker.forwarded, h1, h3, h4]
  have := hinv.deliv
  rw [hall, hinv.vals] at this
  exact this

/-- The parameter arrival of fanIn, roundWinner and pipeline stands for a run of
the goroutines: what the reducer receives in a completed run of the fan-in
transition system is fanIn supportChannels arrival for an order arrival that is
a rearrangement of the worker indices. -/
theorem fanInRun_delivers_fanIn (supportChannels : List Plane3DwSupport) (sched : List Action)
    (s : FanInState Plane3DwSupport)
    (h : fanInRun (fanInInit supportChannels) sched = some s) (hc : s.closed = true) :
    ∃ arrival : List Nat,
      arrival.Perm (List.range supportChannels.length) ∧
        fanIn supportChannels arrival = s.delivered := by
  obtain ⟨arrival, h1, h2⟩ :=
    exists_arrival_of_perm s.delivered supportChannels
      (fanInRun_closed_perm supportChannels sched s h hc)
  exact ⟨arrival, h1, h2⟩

/-- C14: for every list of worker results and every interleaving of the steps
of the workers, of the output goroutines of fanIn and of the closing goroutine:
nothing panics; the values delivered so far are worker results, none twice; the
run has at most 5 N + 1 steps; while the merged channel is open some goroutine
can step, and the run can be continued until the merged channel is closed; and
once it is closed, exactly N items have been delivered, they are the worker
results as a multiset, and no further step (no further delivery) is possible. -/
theorem fanIn_delivers_every_value {α : Type} (values : List α) (sched : List Action)
    (s : FanInState α) (h : fanInRun (fanInInit values) sched = some s) :
    s.panicked = false ∧
    s.delivered.Subperm values ∧
    sched.length ≤ 5 * values.length + 1 ∧
    (s.closed = false → ∃ a, (fanInStep s a).isSome = true) ∧
    (∃ rest s2, fanInRun s rest = some s2 ∧ s2.closed = true) ∧
    (s.closed = true →
      s.delivered.Perm values ∧ s.delivered.length = values.length ∧
        ∀ a, fanInStep s a = none) := by
  obtain ⟨hinit, hsteps0⟩ := fanInInit_inv values
  obtain ⟨hinv, hsteps⟩ := fanInRun_inv values sched (fanInInit values) s hinit h
  have hlen : s.workers.length = values.length := by
    rw [← List.length_map s.workers Worker.value, hinv.vals]
  have hle := FanInState.steps_le s
  refine ⟨hinv.noPanic, ?_, by omega, fanInStep_progress values s hinv,
    fanInRun_completes values _ s hinv (le_refl _), ?_⟩
  · refine ⟨_, hinv.deliv.symm, ?_⟩
    rw [← hinv.vals]
    exact (List.filter_sublist _).map _
  · intro hc
    have hall : s.workers.filter Worker.forwarded = s.workers := by
      rw [List.filter_eq_self]
      intro w hw
      obtain ⟨h1, _, h3, h4⟩ := Worker.wf_done w (hinv.wf w hw) (hinv.closedDone hc w hw)
      simp [Worker.forwarded, h1, h3, h4]
    have hperm : s.delivered.Perm values := by
      have := hinv.deliv
      rw [hall, hinv.vals] at this
      exact this
    exact ⟨hperm, hperm.length_eq, fanInStep_closed values s hinv hc⟩

/-- Two workers with the results 10 and 20; the second worker completes first:
the reader receives 20, then 10, and the merged channel is closed. -/
theorem fanIn_delivers_every_value_witness :
    fanInRun (fanInInit [10, 20])
        [Action.workerSend 1, Action.outputReceive 1, Action.workerSend 0, Action.outputSend 1,
          Action.workerClose 1, Action.outputReceive 0, Action.outputExit 1, Action.outputSend 0,
          Action.workerClose 0, Action.outputExit 0, Action.closeMerged] =
      some
        { workers :=
            [{ value := 10, sent := true, chanClosed := true, buffer := none, holding := none,
               done := true },
             { value := 20, sent := true, chanClosed := true, buffer := none, holding := none,
               done := true }],
          wg := 0, delivered := [20, 10], closed := true, panicked := false } ∧
    ([20, 10] : List Nat).Perm [10, 20] ∧ ([20, 10] : List Nat).length = 2 :=
  ⟨rfl,
    ((fanIn_delivers_every_value [10, 20]
      [Action.workerSend 1, Action.outputReceive 1, Action.workerSend 0, Action.outputSend 1,
        Action.workerClose 1, Action.outputReceive 0, Action.outputExit 1, Action.outputSend 0,
        Action.workerClose 0, Action.outputExit 0, Action.closeMerged]
      { workers :=
          [{ value := 10, sent := true, chanClosed := true, buffer := none, holding := none,
             done := true },
           { value := 20, sent := true, chanClosed := true, buffer := none, holding := none,
             done := true }],
        wg := 0, delivered := [20, 10], closed := true, panicked := false } rfl).2.2.2.2.2 rfl).1,
    ((fanIn_delivers_every_value [10, 20]
      [Action.workerSend 1, Action.outputReceive 1, Action.workerSend 0, Action.outputSend 1,
        Action.workerClose 1, Action.outputReceive 0, Action.outputExit 1, Action.outputSend 0,
        Action.workerClose 0, Action.outputExit 0, Action.closeMerged]
      { workers :=
          [{ value := 10, sent := true, chanClosed := true, buffer := none, holding := none,
             done := true },
           { value := 20, sent := true, chanClosed := true, buffer := none, holding := none,
             done := true }],
        wg := 0, delivered := [20, 10], closed := true, panicked := false } rfl).2.2.2.2.2
      rfl).2.1⟩

namespace IEEE

/-! ## Rounding to binary64 -/

theorem roundHalfEven_eq (r : ℝ) (m : Int) (h : |r - m| < 1 / 2) : roundHalfEven r = m := by
  rw [abs_lt] at h
  obtain ⟨h1, h2⟩ := h
  by_cases hm : (m : ℝ) ≤ r
  · have hf : ⌊r⌋ = m := by
      rw [Int.floor_eq_iff]
      constructor <;> linarith
    unfold roundHalfEven
    rw [hf, if_pos (by linarith)]
  · have hf : ⌊r⌋ = m - 1 := by
      rw [Int.floor_eq_iff]
      push_cast
      constructor <;> linarith
    unfold roundHalfEven
    rw [hf]
    push_cast
    rw [if_neg (by linarith), if_pos (by linarith)]
    ring

theorem roundHalfEven_nonneg (r : ℝ) (h : 0 ≤ r) : 0 ≤ roundHalfEven r := by
  have hf : 0 ≤ ⌊r⌋ := Int.floor_nonneg.mpr h
  unfold roundHalfEven
  split_ifs <;> omega

theorem round64_zero : round64 0 = Float64.finite 0 := by
  unfold round64
  have h0 : roundHalfEven 0 = 0 := roundHalfEven_eq 0 0 (by norm_num)
  simp only [zero_div, h0, Int.cast_zero, zero_mul, abs_zero]
  rw [if_neg (not_le.mpr (zpow_pos (by norm_num) _))]

/-- The rounding of a non-negative real is +Inf or a non-negative finite value. -/
theorem round64_nonneg (x : ℝ) (hx : 0 ≤ x) :
    round64 x = Float64.posInf ∨ ∃ y : ℝ, 0 ≤ y ∧ round64 x = Float64.finite y := by
  have hr : 0 ≤ roundHalfEven (x / (2 : ℝ) ^ ulpExponent x) :=
    roundHalfEven_nonneg _ (div_nonneg hx (le_of_lt (zpow_pos (by norm_num) _)))
  have hy : (0 : ℝ) ≤ (roundHalfEven (x / (2 : ℝ) ^ ulpExponent x) : ℝ) *
      (2 : ℝ) ^ ulpExponent x :=
    mul_nonneg (by exact_mod_cast hr) (le_of_lt (zpow_pos (by norm_num) _))
  unfold round64
  split_ifs with c1 c2
  · exact Or.inl rfl
  · exfalso
    have hx0 : x = 0 := le_antisymm (not_lt.mp c2) hx
    rw [hx0] at c1
    have h0 : roundHalfEven 0 = 0 := roundHalfEven_eq 0 0 (by norm_num)
    simp only [zero_div, h0, Int.cast_zero, zero_mul, abs_zero] at c1
    exact absurd c1 (not_le.mpr (zpow_pos (by norm_num) _))
  · exact Or.inr ⟨_, hy, rfl⟩

theorem fadd_finite (a b : ℝ) : fadd (Float64.finite a) (Float64.finite b) = round64 (a + b) :=
  rfl

theorem fmul_finite (a b : ℝ) : fmul (Float64.finite a) (Float64.finite b) = round64 (a * b) :=
  rfl

theorem fdiv_finite (a b : ℝ) (hb : b ≠ 0) :
    fdiv (Float64.finite a) (Float64.finite b) = round64 (a / b) := by
  simp [fdiv, hb]

theorem fabs_nan_or_nonneg (x : Float64) : fabs x = Float64.nan ∨ NonNeg (fabs x) := by
  cases x with
  | nan => exact Or.inl rfl
  | negInf => exact Or.inr (Or.inl rfl)
  | posInf => exact Or.inr (Or.inl rfl)
  | finite a => exact Or.inr (Or.inr ⟨|a|, abs_nonneg a, rfl⟩)

theorem fsqrt_nan_or_nonneg (x : Float64) : fsqrt x = Float64.nan ∨ NonNeg (fsqrt x) := by
  cases x with
  | nan => exact Or.inl rfl
  | negInf => exact Or.inl rfl
  | posInf => exact Or.inr (Or.inl rfl)
  | finite a =>
    by_cases ha : a < 0
    · left
      simp [fsqrt, ha]
    · right
      have h : fsqrt (Float64.finite a) = round64 (Real.sqrt a) := by simp [fsqrt, ha]
      rw [h]
      exact round64_nonneg _ (Real.sqrt_nonneg a)

theorem fdiv_nan_or_nonneg (x y : Float64) (hx : x = Float64.nan ∨ NonNeg x)
    (hy : y = Float64.nan ∨ NonNeg y) : fdiv x y = Float64.nan ∨ NonNeg (fdiv x y) := by
  rcases hx with hx | hx | ⟨a, ha, hx⟩ <;> rcases hy with hy | hy | ⟨b, hb, hy⟩ <;> subst hx <;>
    subst hy
  · exact Or.inl rfl
  · exact Or.inl rfl
  · exact Or.inl rfl
  · exact Or.inl rfl
  · exact Or.inl rfl
  · right
    left
    simp [fdiv, signedInf, hb]
  · exact Or.inl rfl
  · right
    right
    exact ⟨0, le_refl 0, rfl⟩
  · by_cases hb0 : b = 0
    · subst hb0
      by_cases ha0 : 0 < a
      · right
        left
        simp [fdiv, ha0]
      · left
        have : ¬ a < 0 := not_lt.mpr ha
        simp [fdiv, ha0, this]
    · right
      rw [fdiv_finite a b hb0]
      exact round64_nonneg _ (div_nonneg ha hb)

theorem ge_zero_of_nonneg (x : Float64) (h : NonNeg x) :
    Float64.ge x (Float64.finite 0) = true := by
  rcases h with h | ⟨r, hr, h⟩ <;> subst h
  · rfl
  · simp [Float64.ge, Float64.le, hr]

/-- C8 (amended): in binary64 arithmetic, for every point p and every plane P,
whatever float64 values their fields hold (NaN and the infinities included),
GetDistance(p, P) is NaN or satisfies GetDistance(p, P) >= 0: it is never
negative.  When all four coefficients of the plane are 0 it is NaN for every
point, and the comparison GetDistance(p, P) >= 0 is false. -/
theorem GetDistance_nan_or_ge_zero (p : Point3D) (P : Plane3D) :
    (GetDistance p P = Float64.nan ∨ Float64.ge (GetDistance p P) (Float64.finite 0) = true) ∧
    (P = { A := Float64.finite 0, B := Float64.finite 0, C := Float64.finite 0,
           D := Float64.finite 0 } →
      GetDistance p P = Float64.nan ∧
        Float64.ge (GetDistance p P) (Float64.finite 0) = false) := by
  constructor
  · rcases fdiv_nan_or_nonneg _ _
        (fabs_nan_or_nonneg
          (fadd (fadd (fadd (fmul P.A p.X) (fmul P.B p.Y)) (fmul P.C p.Z)) P.D))
        (fsqrt_nan_or_nonneg (fadd (fadd (fpow2 P.A) (fpow2 P.B)) (fpow2 P.C)))
      with h | h
    · exact Or.inl h
    · exact Or.inr (ge_zero_of_nonneg _ h)
  · intro hP
    subst hP
    have h : GetDistance p
        { A := Float64.finite 0, B := Float64.finite 0, C := Float64.finite 0,
          D := Float64.finite 0 } = Float64.nan := by
      obtain ⟨X, Y, Z⟩ := p
      cases X <;> cases Y <;> cases Z <;>
        simp [GetDistance, fpow2, fmul, fadd, round64_zero, fabs, fsqrt, fdiv]
    rw [h]
    exact ⟨rfl, rfl⟩

/-! ## Planes with a zero normal in binary64 arithmetic -/

theorem fdiv_zero_nan_or_posInf (x : Float64) (hx : x = Float64.nan ∨ NonNeg x) :
    fdiv x (Float64.finite 0) = Float64.nan ∨ fdiv x (Float64.finite 0) = Float64.posInf := by
  rcases hx with hx | hx | ⟨a, ha, hx⟩ <;> subst hx
  · exact Or.inl rfl
  · right
    simp [fdiv, signedInf]
  · by_cases ha0 : 0 < a
    · right
      simp [fdiv, ha0]
    · left
      have : ¬ a < 0 := not_lt.mpr ha
      simp [fdiv, ha0, this]

/-- In binary64 arithmetic the distance to a plane whose normal is the zero
vector is NaN or +Inf, whatever the point and the coefficient D: the division
by zero is not a fault. -/
theorem GetDistance_zero_normal (p : Point3D) (D : Float64) :
    GetDistance p
        { A := Float64.finite 0, B := Float64.finite 0, C := Float64.finite 0, D := D } =
      Float64.nan ∨
    GetDistance p
        { A := Float64.finite 0, B := Float64.finite 0, C := Float64.finite 0, D := D } =
      Float64.posInf := by
  have hden : fsqrt (fadd (fadd (fpow2 (Float64.finite 0)) (fpow2 (Float64.finite 0)))
      (fpow2 (Float64.finite 0))) = Float64.finite 0 := by
    simp [fpow2, fmul_finite, fadd_finite, round64_zero, fsqrt]
  simp only [GetDistance]
  rw [hden]
  exact fdiv_zero_nan_or_posInf _ (fabs_nan_or_nonneg _)

/-- In binary64 arithmetic a plane whose normal is the zero vector gets support 0
for every cloud and every eps: no distance to it is less than eps. -/
theorem GetSupport_zero_normal (D : Float64) (points : List Point3D) (eps : Float64) :
    (GetSupport { A := Float64.finite 0, B := Float64.finite 0, C := Float64.finite 0, D := D }
      points eps).SupportSize = 0 := by
  have hlt : ∀ p : Point3D,
      Float64.lt
        (GetDistance p
          { A := Float64.finite 0, B := Float64.finite 0, C := Float64.finite 0, D := D })
        eps = false := by
    intro p
    rcases GetDistance_zero_normal p D with h | h <;> rw [h] <;> cases eps <;> rfl
  have hfold : ∀ (l : List Point3D) (n : Int),
      l.foldl
        (fun n point =>
          if Float64.lt
              (GetDistance point
                { A := Float64.finite 0, B := Float64.finite 0, C := Float64.finite 0, D := D })
              eps then n + 1 else n)
        n = n := by
    intro l
    induction l with
    | nil => intro n; rfl
    | cons x xs ih =>
      intro n
      simp only [List.foldl_cons, hlt x, Bool.false_eq_true, if_false]
      exact ih n
  exact hfold points 0

/-! ## A collinear triplet of binary64 points (C9, C16) -/

end IEEE

end RANSAC
